import Mathlib

/-!
# Follow symbol under cursor (Qt Creator, `cppfollowsymbolundercursor.cpp`)

A shallow embedding of `FollowSymbolUnderCursor::findLink`, of
`attemptFuncDeclDef`, `findDefinition`, `skipForwardDeclarations` and of
`findMacroLink`, together with theorems about them. The namespace
`Beautifier` embeds `findConfigFileNode` of the beautifier plugin's
`configurationdetector.cpp`.

Conventions.
* C++ `int` values are `Int`, `unsigned` values are `Nat`; a cast
  `(unsigned) x` of an `int` is `toUnsigned x` (reduction modulo `2^32`), and
  an `unsigned` value stored in an `int` is `toInt32` of it: a macro's line,
  the offsets of a macro use, the offsets of the name in the fast path.
  The sums `block.position() + tk.begin()` of an offset in the buffer and the
  offset of a lexer token in the line are assumed to fit an `int` and are
  plain `Int` sums.
* A pointer that may be null is an `Option`.
* Everything the engine asks of the editor widget, the lexer, the parser and
  the symbol finder is a field of `Env`; the engine's own mutable member
  `m_snapshot` is threaded explicitly.
-/

namespace FollowSymbol

/-! ## Data model -/

/-- The cast `(unsigned) x` of a 32-bit `int`. -/
def toUnsigned (x : Int) : Nat := (x % 4294967296).toNat

/-- The conversion to a 32-bit `int` of a value computed in `unsigned`
arithmetic: the representative of `x` modulo `2^32` in `[-2^31, 2^31)`. -/
def toInt32 (x : Int) : Int := (x + 2147483648) % 4294967296 - 2147483648

/-- `BaseTextEditorWidget::Link`. The struct is declared in the text editor's
header: both span ends start at `-1`, the target file name starts empty and
line and column start at `0`. -/
structure Link where
  linkTextStart : Int := -1
  linkTextEnd : Int := -1
  targetFileName : String := ""
  targetLine : Int := 0
  targetColumn : Int := 0
deriving DecidableEq, Repr

/-- `Link::hasValidTarget`: the target file name is not empty. -/
def Link.hasValidTarget (l : Link) : Bool := decide (l.targetFileName ≠ "")

/-- `Link::hasValidLinkText`: the two span ends differ. -/
def Link.hasValidLinkText (l : Link) : Bool := decide (l.linkTextStart ≠ l.linkTextEnd)

/-- A lexer token of one line: its kind and its offsets in the line. -/
structure Token where
  kind : Nat := 0
  begin : Nat := 0
  end_ : Nat := 0
deriving DecidableEq, Repr

/-- The values of the token kinds that `findLink` names. The enumeration is
declared in the C++ front end's `Token.h`; its numbering is a parameter. -/
structure TokenKinds where
  T_IDENTIFIER : Nat
  T_STRING_LITERAL : Nat
  T_ANGLE_STRING_LITERAL : Nat
  T_LPAREN : Nat
  T_RPAREN : Nat
  T_SIGNAL : Nat
  T_SLOT : Nat
  T_FIRST_QT_KEYWORD : Nat
  T_LAST_KEYWORD : Nat
  /-- the kinds that `findLink` tests with `is` are different enumerators -/
  distinct : [T_IDENTIFIER, T_STRING_LITERAL, T_ANGLE_STRING_LITERAL, T_LPAREN, T_RPAREN,
    T_SIGNAL, T_SLOT].Nodup

/-- A macro definition: name, defining file, defining line. -/
structure Macro where
  name : String
  fileName : String
  line : Nat
deriving DecidableEq, Repr

/-- `Document::Include`: a resolved include directive. -/
structure Include where
  resolvedFileName : String
  line : Nat
deriving DecidableEq, Repr

/-- `Document::MacroUse`: the byte range of a use and the macro it refers to. -/
structure MacroUse where
  usedMacro : Macro
  begin : Nat
  end_ : Nat
deriving DecidableEq, Repr

/-- The part of a parsed `Document` that the engine reads directly.
`hasAst` stands for `translationUnit() && translationUnit()->ast()`. -/
structure Document where
  fileName : String
  definedMacros : List Macro := []
  resolvedIncludes : List Include := []
  macroUses : List MacroUse := []
  hasAst : Bool := false
deriving DecidableEq, Repr

/-- Modelled from the spec: `Document::findMacroDefinitionAt` lives in the C++
front end; it yields a macro "defined at the current line in the document",
here the first one in the macro table. -/
def Document.findMacroDefinitionAt (doc : Document) (line : Nat) : Option Macro :=
  doc.definedMacros.find? (fun m => m.line == line)

/-- Modelled from the spec: `Document::findMacroUseAt` lives in the C++ front
end; it yields a macro use that "covers the position", here the first use
whose half-open byte range contains the offset. -/
def Document.findMacroUseAt (doc : Document) (offset : Nat) : Option MacroUse :=
  doc.macroUses.find? (fun u => decide (u.begin ≤ offset) && decide (offset < u.end_))

/-- `Snapshot`: the parsed documents, at most one looked up per file name. -/
abbrev Snapshot := List Document

/-- `Snapshot::document(fileName)`. -/
def Snapshot.document (s : Snapshot) (fileName : String) : Option Document :=
  s.find? (fun d => d.fileName == fileName)

/-- `Snapshot::insert(doc)`: the document replaces the entry of its file name. -/
def Snapshot.insert (s : Snapshot) (doc : Document) : Snapshot :=
  doc :: s.filter (fun d => d.fileName != doc.fileName)

/-- The dynamic class of a `Type`, as far as the engine asks for it. -/
inductive TypeKind where
  | forwardClassDeclaration
  | objCForwardClassDeclaration
  | objCForwardProtocolDeclaration
  | function
  | other
deriving DecidableEq, Repr

/-- `FullySpecifiedType`: a type of some dynamic class, or a reference to a
type. -/
inductive FullySpecifiedType where
  | ofKind (k : TypeKind)
  | reference (elementType : FullySpecifiedType)
deriving DecidableEq, Repr

/-- `FullySpecifiedType::simplified`: strips reference types. -/
def FullySpecifiedType.simplified : FullySpecifiedType → FullySpecifiedType
  | .reference e => e.simplified
  | t => t

def FullySpecifiedType.isForwardClassDeclarationType (t : FullySpecifiedType) : Bool :=
  t == .ofKind .forwardClassDeclaration

def FullySpecifiedType.isObjCForwardClassDeclarationType (t : FullySpecifiedType) : Bool :=
  t == .ofKind .objCForwardClassDeclaration

def FullySpecifiedType.isObjCForwardProtocolDeclarationType (t : FullySpecifiedType) : Bool :=
  t == .ofKind .objCForwardProtocolDeclaration

def FullySpecifiedType.isFunctionType (t : FullySpecifiedType) : Bool :=
  t == .ofKind .function

/-- The dynamic class of a `Symbol`, as far as the engine asks for it. -/
inductive SymbolKind where
  | declaration
  | function
  | usingDeclaration
  | forwardClassDeclaration
  | other
deriving DecidableEq, Repr

/-- A `Symbol`. `id` stands for the object's address: the engine compares
symbols by pointer. -/
structure Symbol where
  id : Nat
  fileName : String
  line : Nat
  column : Nat
  kind : SymbolKind
  type : FullySpecifiedType
deriving DecidableEq, Repr

def Symbol.isDeclaration (s : Symbol) : Bool := s.kind == .declaration
def Symbol.isFunction (s : Symbol) : Bool := s.kind == .function
def Symbol.isUsingDeclaration (s : Symbol) : Bool := s.kind == .usingDeclaration
def Symbol.isForwardClassDeclaration (s : Symbol) : Bool := s.kind == .forwardClassDeclaration

/-- A `Scope` of a document's scope tree (only its identity matters here). -/
structure Scope where
  id : Nat
deriving DecidableEq, Repr

/-- `LookupItem`: one candidate resolution of an expression. -/
structure LookupItem where
  type : FullySpecifiedType
  declaration : Option Symbol
deriving DecidableEq, Repr

/-- The first entry of a declarator's `postfix_declarator_list`. -/
inductive PostfixDeclarator where
  | functionDeclarator (symbol : Option Symbol)
  | other
deriving DecidableEq, Repr

/-- The AST node classes that `attemptFuncDeclDef` distinguishes. A qualified
name is a name too; `unqualified_name` is the address of its last part. -/
inductive ASTKind where
  | name
  | qualifiedName (unqualified_name : Option Nat)
  | parameterDeclaration
  | declarator (postfix_declarator_list : List (Option PostfixDeclarator))
  | functionDefinition (symbol : Option Symbol)
  | simpleDeclaration
  | other
deriving DecidableEq, Repr

/-- An AST node: its address, its class, and its token range
(`firstToken()`, `lastToken()`, the latter one past the last token). -/
structure AST where
  id : Nat
  kind : ASTKind
  firstToken : Nat := 0
  lastToken : Nat := 1
deriving DecidableEq, Repr

/-- `AST::asName`. -/
def AST.asName (a : AST) : Option AST :=
  match a.kind with
  | .name => some a
  | .qualifiedName _ => some a
  | _ => none

def AST.isParameterDeclaration (a : AST) : Bool :=
  match a.kind with
  | .parameterDeclaration => true
  | _ => false

/-! ## Collaborators -/

/-- Everything `findLink` reads from outside: the widget and its text
buffer, the cursor, the lexer's results for the cursor's line, the semantic
document, the parser's and the resolver's answers, the symbol finder and the
model manager. All of them are deterministic functions of their arguments. -/
structure Env where
  /-- the buffer behind `m_widget->document()` -/
  text : List Char
  /-- `QChar::isLetterOrNumber` -/
  isLetterOrNumber : Char → Bool
  /-- `QChar::isSpace` -/
  isSpace : Char → Bool
  /-- `m_widget->editorDocument()->filePath()` -/
  filePath : String
  /-- `m_widget->convertPosition(pos, &line, &column)` -/
  convertPosition : Int → Int × Int
  /-- `textDocument->findBlockByNumber(n).position()` -/
  blockPositionByNumber : Int → Int
  /-- `m_widget->linkToSymbol(symbol)` for a symbol that is not null -/
  linkToSymbol : Symbol → Link
  /-- `m_cursor.position()` -/
  cursorPosition : Int
  /-- `m_cursor.block().position()` -/
  cursorBlockPosition : Int
  /-- `m_cursor.blockNumber()` -/
  cursorBlockNumber : Int
  kinds : TokenKinds
  /-- `tokenize(blockText, previousBlockState)` for the cursor's line -/
  tokens : List Token
  /-- `SimpleLexer::tokenAt(block.text(), pos, previousBlockState, true)` -/
  tokenAt : Int → Token
  /-- `CPPEditorWidget::identifierUnderCursor(&macroCursor)` -/
  identifierUnderCursor : String
  /-- `macroCursor.selectionStart()` after `identifierUnderCursor` -/
  identifierSelectionStart : Int
  /-- `macroCursor.selectionEnd()` after `identifierUnderCursor` -/
  identifierSelectionEnd : Int
  /-- `ExpressionUnderCursor()(tc)` for a cursor at the given position -/
  expressionUnderCursor : Int → String
  /-- `findNextClosingParenthesis(&tc, true)` from the given position: the
  selected text when it succeeds -/
  findNextClosingParenthesis : Int → Option String
  /-- `m_resolveTarget` -/
  resolveTarget : Bool
  /-- `m_document`, the document from the semantic info -/
  document : Option Document
  /-- `ASTPath(m_document)(cursor)`, outermost node first -/
  astPath : Document → List AST
  /-- `translationUnit()->getTokenStartPosition(index, &line, &column)` -/
  getTokenStartPosition : Document → Nat → Nat × Nat
  /-- `translationUnit()->getTokenEndPosition(index, &line, &column)` -/
  getTokenEndPosition : Document → Nat → Nat × Nat
  /-- `doc->scopeAt(line, column)` -/
  scopeAt : Document → Nat → Nat → Option Scope
  /-- `doc->lastVisibleSymbolAt(line, column)` -/
  lastVisibleSymbolAt : Document → Nat → Nat → Option Symbol
  /-- `TypeOfExpression::reference` after `init(doc, snapshot)` with template
  expansion enabled -/
  reference : Document → Snapshot → String → Scope → List LookupItem
  /-- `m_symbolFinder->findMatchingDeclaration(LookupContext(doc, snapshot), f)` -/
  findMatchingDeclaration : Document → Snapshot → Option Symbol → List Symbol
  /-- `m_symbolFinder->findMatchingDefinition(symbol, snapshot)` -/
  findMatchingDefinition : Option Symbol → Snapshot → Option Symbol
  /-- `m_symbolFinder->findMatchingClassDeclaration(symbol, snapshot)` -/
  findMatchingClassDeclaration : Symbol → Snapshot → Option Symbol
  /-- `CppModelManagerInterface::configurationFileName()` -/
  configurationFileName : String
  /-- `CppModelManagerInterface::instance()->snapshot()` -/
  globalSnapshot : Snapshot

/-- `m_widget->document()->characterAt(pos)`; `none` is the null `QChar` of a
position outside the buffer. -/
def Env.characterAt (env : Env) (pos : Int) : Option Char :=
  if pos < 0 then none else env.text[pos.toNat]?

/-- The test `ch.isLetterOrNumber() || ch == '_'`. -/
def Env.isIdentifierChar (env : Env) (ch : Option Char) : Bool :=
  match ch with
  | some c => env.isLetterOrNumber c || c == '_'
  | none => false

/-- A loop `while (p(characterAt(pos))) ++pos;` over the rest of the buffer. -/
def skipChars (p : Char → Bool) : List Char → Int → Int
  | [], pos => pos
  | c :: rest, pos => if p c then skipChars p rest (pos + 1) else pos

/-- The same loop started at an arbitrary position. -/
def Env.skipFrom (env : Env) (p : Char → Bool) (pos : Int) : Int :=
  if pos < 0 then pos else skipChars p (env.text.drop pos.toNat) pos

/-- "Move to end of identifier": the position of `tc` after the first loop. -/
def Env.identifierEnd (env : Env) : Int :=
  env.skipFrom (fun c => env.isLetterOrNumber c || c == '_') env.cursorPosition

/-! ## Macro fallback search -/

/-- The loop over the includes of `findMacroLink_helper`, from the last
include to the first; `step` is the recursive call. -/
def includeLoop (step : Option Document → List String → Link × List String)
    (snapshot : Snapshot) : List Include → List String → Link × List String
  | [], processed => ({}, processed)
  | i :: rest, processed =>
    let r := step (snapshot.document i.resolvedFileName) processed
    if r.1.hasValidTarget then r else includeLoop step snapshot rest r.2

/-- `findMacroLink_helper`. The set `processed` is threaded; the first
argument bounds the nesting depth of the recursion. -/
def findMacroLink_helper (name : String) (snapshot : Snapshot) :
    Nat → Option Document → List String → Link × List String
  | 0, _, processed => ({}, processed)
  | _, none, processed => ({}, processed)
  | fuel + 1, some doc, processed =>
    if name.data.head? ≠ some '<' ∧ doc.fileName ∉ processed then
      let processed := doc.fileName :: processed
      match doc.definedMacros.find? (fun m => m.name == name) with
      | some m => ({ targetFileName := m.fileName, targetLine := toInt32 m.line }, processed)
      | none =>
        includeLoop (findMacroLink_helper name snapshot fuel) snapshot
          doc.resolvedIncludes.reverse processed
    else ({}, processed)

/-- `findMacroLink`. Every nested call that passes the guard adds a new file
name to `processed`, so the depth never exceeds the number of documents of
the snapshot plus one. -/
def findMacroLink (env : Env) (name : String) (doc : Option Document) : Link :=
  if name ≠ "" then
    match doc with
    | some d =>
      (findMacroLink_helper name env.globalSnapshot (env.globalSnapshot.length + 1)
        (some d) []).1
    | none => {}
  else {}

/-! ## Forward declarations -/

/-- One `while (!candidates.isEmpty())` loop of `skipForwardDeclarations`:
takes candidates off the front until one is not of the kind; yields the new
`result` and what is left of `candidates`. -/
def skipLeading (isKind : FullySpecifiedType → Bool) (result : LookupItem) :
    List LookupItem → LookupItem × List LookupItem
  | [] => (result, [])
  | r :: rest => if !isKind r.type then (r, rest) else skipLeading isKind result rest

/-- `skipForwardDeclarations`; `none` stands for the failed assertion of
`candidates.first()` on an empty list. -/
def skipForwardDeclarations (resolvedSymbols : List LookupItem) : Option LookupItem :=
  match resolvedSymbols with
  | [] => none
  | first :: _ =>
    let ty := first.type.simplified
    let s0 : LookupItem × List LookupItem := (first, resolvedSymbols)
    let s1 := if ty.isForwardClassDeclarationType then
        skipLeading FullySpecifiedType.isForwardClassDeclarationType s0.1 s0.2 else s0
    let s2 := if ty.isObjCForwardClassDeclarationType then
        skipLeading FullySpecifiedType.isObjCForwardClassDeclarationType s1.1 s1.2 else s1
    let s3 := if ty.isObjCForwardProtocolDeclarationType then
        skipLeading FullySpecifiedType.isObjCForwardProtocolDeclarationType s2.1 s2.2 else s2
    some s3.1

/-! ## Function declarator fast path -/

/-- The loop `for (int i = path.size() - 2; i > 0; --i)` of
`attemptFuncDeclDef`, entered with `i`: the postfix declarator list of the
first declarator met, and the path node right before it. -/
def findDeclarator (path : List AST) :
    Nat → Option (List (Option PostfixDeclarator) × AST)
  | 0 => none
  | i + 1 =>
    match path[i + 1]?, path[i]? with
    | some node, some parent =>
      match node.kind with
      | .declarator postfixList => some (postfixList, parent)
      | _ => findDeclarator path i
    | _, _ => findDeclarator path i

/-- The test on `path.at(path.size() - 2)->asQualifiedName()`: the node
before the name is a qualified name whose unqualified part is another node. -/
def onQualifier (path : List AST) (name : AST) : Bool :=
  match path[path.length - 2]? with
  | some parent =>
    match parent.kind with
    | .qualifiedName unqualified => decide (unqualified ≠ some name.id)
    | _ => false
  | none => false

/-- The function declarator at the head of a postfix declarator list, if the
list, its first value and the cast to `FunctionDeclaratorAST` are all
non-null; the result is the declarator's `symbol`. -/
def asFunctionDeclarator : List (Option PostfixDeclarator) → Option (Option Symbol)
  | some (.functionDeclarator symbol) :: _ => some symbol
  | _ => none

/-- The symbol finder's answer for the declarator's parent: the first
matching declaration for a function definition, the matching definition for
a simple declaration, nothing otherwise. -/
def declDefTarget (env : Env) (doc : Document) (snapshot : Snapshot)
    (declParent : AST) (funcDeclSymbol : Option Symbol) : Option Symbol :=
  match declParent.kind with
  | .functionDefinition symbol => (env.findMatchingDeclaration doc snapshot symbol).head?
  | .simpleDeclaration => env.findMatchingDefinition funcDeclSymbol snapshot
  | _ => none

/-- The buffer offset of the start of the name's first token:
`findBlockByNumber(startLine - 1).position() + startColumn - 1`, computed in
`unsigned` and stored in an `int`. -/
def nameStartOffset (env : Env) (doc : Document) (name : AST) : Int :=
  let start := env.getTokenStartPosition doc name.firstToken
  toInt32 (env.blockPositionByNumber (toInt32 ((start.1 : Int) - 1)) + (start.2 : Int) - 1)

/-- The buffer offset of the end of the name's last token, the token of
index `name->lastToken() - 1` in unsigned arithmetic. -/
def nameEndOffset (env : Env) (doc : Document) (name : AST) : Int :=
  let stop := env.getTokenEndPosition doc ((name.lastToken + 4294967295) % 4294967296)
  toInt32 (env.blockPositionByNumber (toInt32 ((stop.1 : Int) - 1)) + (stop.2 : Int) - 1)

/-- `attemptFuncDeclDef`, for the document `m_document` (the caller has
checked that it is not null and has an AST). The second component is
`m_snapshot` after the call. -/
def attemptFuncDeclDef (env : Env) (doc : Document) (snapshot : Snapshot) :
    Link × Snapshot :=
  let snapshot := snapshot.insert doc
  let result : Link := {}
  let path := env.astPath doc
  if path.length < 5 then (result, snapshot) else
  match path.getLast?.bind AST.asName with
  | none => (result, snapshot)
  | some name =>
    if onQualifier path name then (result, snapshot) else
    if path.any AST.isParameterDeclaration then (result, snapshot) else
    match findDeclarator path (path.length - 2) with
    | none => (result, snapshot)
    | some (postfixList, declParent) =>
      match asFunctionDeclarator postfixList with
      | none => (result, snapshot)
      | some funcDeclSymbol =>
        match declDefTarget env doc snapshot declParent funcDeclSymbol with
        | some target =>
          ({ env.linkToSymbol target with
              linkTextStart := nameStartOffset env doc name
              linkTextEnd := nameEndOffset env doc name }, snapshot)
        | none => (result, snapshot)

/-- `findDefinition`. -/
def findDefinition (env : Env) (symbol : Symbol) (snapshot : Snapshot) : Option Symbol :=
  if symbol.isFunction then none
  else if !symbol.type.isFunctionType then none
  else env.findMatchingDefinition (some symbol) snapshot

/-! ## `findLink` -/

/-- The outcome of one stage of `findLink`: the function has returned a link,
or it goes on with a value. -/
inductive Step (α : Type) where
  | finished (link : Link)
  | proceed (a : α)
deriving DecidableEq, Repr

/-- The token boundaries recorded so far and the position of the working
cursor `tc`. -/
structure TokenSpan where
  beginOfToken : Int
  endOfToken : Int
  tcPosition : Int
deriving DecidableEq, Repr

/-- The fast path at the head of `findLink`: `link` and `m_snapshot` after
the block "Try to match decl/def". -/
def fastPath (env : Env) (snapshot : Snapshot) : Link × Snapshot :=
  match env.document with
  | some doc =>
    if doc.hasAst then
      let pos := env.skipFrom env.isSpace env.identifierEnd
      if env.characterAt pos = some '(' then attemptFuncDeclDef env doc snapshot
      else ({}, snapshot)
    else ({}, snapshot)
  | none => ({}, snapshot)

/-- The loop header's search: the index of the first token with
`begin <= positionInBlock <= end`. -/
def firstSpanning (p : Nat) : List Token → Nat → Option Nat
  | [], _ => none
  | tk :: rest, i =>
    if tk.begin ≤ p ∧ p ≤ tk.end_ then some i else firstSpanning p rest (i + 1)

/-- The loop "skip matched parenthesis", entered at index `j` with the
tokens from `j` on: the index at which it breaks, or `tokens.size()`. -/
def skipMatchedParenthesis (K : TokenKinds) : List Token → Nat → Int → Nat
  | [], j, _ => j
  | tk :: rest, j, depth =>
    if tk.kind = K.T_LPAREN then skipMatchedParenthesis K rest (j + 1) (depth + 1)
    else if tk.kind = K.T_RPAREN then
      if depth - 1 = 0 then j else skipMatchedParenthesis K rest (j + 1) (depth - 1)
    else skipMatchedParenthesis K rest (j + 1) depth

/-- "Try to find a signal or slot inside SIGNAL() or SLOT()": whether a Qt
method was recognized, and `beginOfToken`, `endOfToken` and the position of
`tc` after the loop. -/
def recognizeQtMethod (env : Env) (positionInBlock : Int) (tcPosition : Int) :
    Bool × TokenSpan :=
  let tokens := env.tokens
  let K := env.kinds
  let kindAt := fun (i : Nat) => (tokens.getD i {}).kind
  let unrecognized : Bool × TokenSpan := (false, ⟨0, 0, tcPosition⟩)
  match firstSpanning (toUnsigned positionInBlock) tokens 0 with
  | none => unrecognized
  | some i =>
    if 2 ≤ i ∧ kindAt i = K.T_IDENTIFIER ∧ kindAt (i - 1) = K.T_LPAREN
        ∧ (kindAt (i - 2) = K.T_SIGNAL ∨ kindAt (i - 2) = K.T_SLOT) then
      if i + 1 < tokens.length ∧ kindAt (i + 1) = K.T_LPAREN then
        let j := skipMatchedParenthesis K (tokens.drop (i - 1)) (i - 1) 0
        if j < tokens.length then
          (true, ⟨env.cursorBlockPosition + (tokens.getD i {}).begin,
                  env.cursorBlockPosition + (tokens.getD i {}).end_,
                  env.cursorBlockPosition + (tokens.getD j {}).end_⟩)
        else unrecognized
      else unrecognized
    else unrecognized

/-- "Now we prefer the doc from the snapshot with macros expanded." -/
def selectDocument (env : Env) (snapshot : Snapshot) : Option Document :=
  match snapshot.document env.filePath with
  | some doc => some doc
  | none => env.document

/-- The token that the block `if (!recognizedQtMethod)` looks at. The block
of `tc` is the cursor's block: `tc` has only moved over identifier
characters. -/
def tokenUnderCursor (env : Env) : Token :=
  let pos := env.cursorPosition - env.cursorBlockPosition
  let ch := env.characterAt env.cursorPosition
  let pos := if pos > 0 ∧ !env.isIdentifierChar ch then pos - 1 else pos
  env.tokenAt pos

/-- The block `if (!recognizedQtMethod)`: include directives, then the test
of the token's kind. -/
def classifyToken (env : Env) (doc : Document) (link : Link) : Step TokenSpan :=
  let K := env.kinds
  let tk := tokenUnderCursor env
  let beginOfToken : Int := env.cursorBlockPosition + tk.begin
  let endOfToken : Int := env.cursorBlockPosition + tk.end_
  let next : Step TokenSpan :=
    if tk.kind ≠ K.T_IDENTIFIER ∧ tk.kind < K.T_FIRST_QT_KEYWORD
        ∧ tk.kind > K.T_LAST_KEYWORD then .finished link
    else .proceed ⟨beginOfToken, endOfToken, endOfToken⟩
  if tk.kind = K.T_STRING_LITERAL ∨ tk.kind = K.T_ANGLE_STRING_LITERAL then
    let lineno := toUnsigned (env.cursorBlockNumber + 1)
    match doc.resolvedIncludes.find? (fun incl => incl.line == lineno) with
    | some incl =>
      .finished { link with
        targetFileName := incl.resolvedFileName
        linkTextStart := beginOfToken + 1
        linkTextEnd := endOfToken - 1 }
    | none => next
  else next

/-- The first block "Handle macro uses": `some` is the link returned there,
`none` means that the function goes on. -/
def macroStep (env : Env) (doc : Document) (link : Link) (line : Nat)
    (endOfToken : Int) : Option Link :=
  match doc.findMacroDefinitionAt line with
  | some m =>
    if m.name = env.identifierUnderCursor then some link else none
  | none =>
    match doc.findMacroUseAt (toUnsigned (endOfToken - 1)) with
    | some use =>
      if use.usedMacro.fileName ≠ env.configurationFileName then
        some { link with
          targetFileName := use.usedMacro.fileName
          targetLine := toInt32 use.usedMacro.line
          linkTextStart := toInt32 use.begin
          linkTextEnd := toInt32 use.end_ }
      else none
    | none => none

/-- The expression handed to the resolver: the expression under `tc`,
extended by a following parenthesized group. -/
def expressionToResolve (env : Env) (tcPosition : Int) : String :=
  let expression := env.expressionUnderCursor tcPosition
  let pos := env.skipFrom env.isSpace tcPosition
  if env.characterAt pos = some '(' ∧ expression ≠ "" then
    match env.findNextClosingParenthesis pos with
    | some selectedText => expression ++ selectedText
    | none => expression
  else expression

/-- The body of the `foreach` over the resolved symbols: does candidate `r`
replace the default pick? -/
def overridesResult (env : Env) (lineNumber positionInBlock beginOfToken : Int)
    (r : LookupItem) : Bool :=
  match r.declaration with
  | none => false
  | some d =>
    if d.isDeclaration || d.isFunction then
      decide (env.filePath = d.fileName) && decide (toUnsigned lineNumber = d.line)
        && decide (toUnsigned positionInBlock ≥ d.column)
    else if d.isUsingDeclaration then
      let tokenBegin := env.convertPosition beginOfToken
      decide (toUnsigned tokenBegin.1 > d.line)
        || (decide (toUnsigned tokenBegin.1 = d.line)
          && decide (toUnsigned tokenBegin.2 > d.column))
    else false

/-- The candidate chosen among non-empty `resolvedSymbols`: the first one
that overrides, else the result of `skipForwardDeclarations`. -/
def chooseCandidate (env : Env) (lineNumber positionInBlock beginOfToken : Int)
    (resolvedSymbols : List LookupItem) : Option LookupItem :=
  match resolvedSymbols.find? (overridesResult env lineNumber positionInBlock beginOfToken) with
  | some r => some r
  | none => skipForwardDeclarations resolvedSymbols

/-- The symbol the link is built from: `def ? def : symbol`. -/
def linkTargetSymbol (env : Env) (doc : Document) (snapshot : Snapshot)
    (line column : Nat) (symbol : Symbol) : Symbol :=
  let target : Option Symbol :=
    if env.resolveTarget then
      let lastVisibleSymbol := env.lastVisibleSymbolAt doc line column
      let found := findDefinition env symbol snapshot
      let found := if found = lastVisibleSymbol then none else found
      if symbol.isForwardClassDeclaration then
        env.findMatchingClassDeclaration symbol snapshot
      else found
    else none
  target.getD symbol

/-- The second block "Handle macro uses" and the final `return Link()`. -/
def macroFallback (env : Env) : Link :=
  let link := findMacroLink env env.identifierUnderCursor env.document
  if link.hasValidTarget then
    { link with
      linkTextStart := env.identifierSelectionStart
      linkTextEnd := env.identifierSelectionEnd }
  else {}

/-- The block `if (!resolvedSymbols.isEmpty())` and what follows it: the link
built from the chosen candidate, else the macro fallback. -/
def candidatesLink (env : Env) (doc : Document) (snapshot : Snapshot)
    (lineNumber positionInBlock : Int) (span : TokenSpan)
    (resolvedSymbols : List LookupItem) : Link :=
  match chooseCandidate env lineNumber positionInBlock span.beginOfToken resolvedSymbols with
  | some result =>
    match result.declaration with
    | some symbol =>
      { env.linkToSymbol (linkTargetSymbol env doc snapshot (toUnsigned lineNumber)
          (toUnsigned (positionInBlock + 1)) symbol) with
        linkTextStart := span.beginOfToken
        linkTextEnd := span.endOfToken }
    | none => macroFallback env
  | none => macroFallback env

/-- From "Find the last symbol up to the cursor position" to the end. -/
def lookupStep (env : Env) (doc : Document) (snapshot : Snapshot) (link : Link)
    (lineNumber positionInBlock : Int) (span : TokenSpan) : Link :=
  let line := toUnsigned lineNumber
  let column := toUnsigned (positionInBlock + 1)
  match env.scopeAt doc line column with
  | none => link
  | some scope =>
    let expression := expressionToResolve env span.tcPosition
    let resolvedSymbols := env.reference doc snapshot expression scope
    candidatesLink env doc snapshot lineNumber positionInBlock span resolvedSymbols

/-- `lineNumber` as set by `convertPosition(m_cursor.position(), ...)`. -/
def Env.lineNumber (env : Env) : Int := (env.convertPosition env.cursorPosition).1

/-- `positionInBlock` as set by `convertPosition(m_cursor.position(), ...)`. -/
def Env.positionInBlock (env : Env) : Int := (env.convertPosition env.cursorPosition).2

/-- The two ways to the macro step: a recognized Qt method, or the block
`if (!recognizedQtMethod)`. -/
def tokenStep (env : Env) (doc : Document) (link : Link) : Step TokenSpan :=
  let qt := recognizeQtMethod env env.positionInBlock env.identifierEnd
  if qt.1 then .proceed qt.2 else classifyToken env doc link

/-- `findLink` after the fast path did not return: `link` is what the fast
path left behind. -/
def resolveLink (env : Env) (snapshot : Snapshot) (link : Link) : Link :=
  match selectDocument env snapshot with
  | none => link
  | some doc =>
    match tokenStep env doc link with
    | .finished l => l
    | .proceed span =>
      match macroStep env doc link (toUnsigned env.lineNumber) span.endOfToken with
      | some l => l
      | none => lookupStep env doc snapshot link env.lineNumber env.positionInBlock span

/-- `FollowSymbolUnderCursor::findLink`: the link returned, and `m_snapshot`
after the call. -/
def findLink (env : Env) (snapshot : Snapshot) : Link × Snapshot :=
  let fast := fastPath env snapshot
  if fast.1.hasValidLinkText then fast
  else (resolveLink env fast.2 fast.1, fast.2)

/-- A sample `linkToSymbol`, used by the example inputs: file and line of the
symbol, the column made 0-based. -/
def symbolLink (symbol : Symbol) : Link :=
  { targetFileName := symbol.fileName
    targetLine := symbol.line
    targetColumn := (symbol.column : Int) - (if symbol.column = 0 then 0 else 1) }

/-- The three kinds of forward declaration that `skipForwardDeclarations`
skips. -/
def TypeKind.isForward : TypeKind → Bool
  | .forwardClassDeclaration => true
  | .objCForwardClassDeclaration => true
  | .objCForwardProtocolDeclaration => true
  | _ => false

/-! ## Example inputs -/

/-- A numbering of the token kinds in which, as in `Token.h`, the Qt keywords
are the last keywords. -/
def exampleKinds : TokenKinds :=
  { T_IDENTIFIER := 6, T_STRING_LITERAL := 11, T_ANGLE_STRING_LITERAL := 19,
    T_LPAREN := 47, T_RPAREN := 65, T_SIGNAL := 153, T_SLOT := 154,
    T_FIRST_QT_KEYWORD := 153, T_LAST_KEYWORD := 172, distinct := by decide }

/-- The declaration `void foo();` at `foo.h:3`, column 6. -/
def fooDeclaration : Symbol :=
  { id := 1, fileName := "foo.h", line := 3, column := 6, kind := .declaration,
    type := .ofKind .function }

/-- The buffer `foo() ;` of `main.cpp` with the cursor at offset 5, right
after the closing parenthesis. The lexer's token there is `)`; the
expression that ends at its end is `foo()`, which resolves to
`fooDeclaration`. No semantic document is available. -/
def exampleEnv : Env :=
  { text := "foo() ;".toList
    isLetterOrNumber := Char.isAlphanum
    isSpace := Char.isWhitespace
    filePath := "main.cpp"
    convertPosition := fun pos => (1, pos)
    blockPositionByNumber := fun _ => 0
    linkToSymbol := symbolLink
    cursorPosition := 5
    cursorBlockPosition := 0
    cursorBlockNumber := 0
    kinds := exampleKinds
    tokens := [⟨6, 0, 3⟩, ⟨47, 3, 4⟩, ⟨65, 4, 5⟩, ⟨70, 6, 7⟩]
    tokenAt := fun _ => ⟨65, 4, 5⟩
    identifierUnderCursor := ""
    identifierSelectionStart := 5
    identifierSelectionEnd := 5
    expressionUnderCursor := fun pos => if pos = 5 then "foo()" else ""
    findNextClosingParenthesis := fun _ => none
    resolveTarget := false
    document := none
    astPath := fun _ => []
    getTokenStartPosition := fun _ _ => (0, 0)
    getTokenEndPosition := fun _ _ => (0, 0)
    scopeAt := fun _ _ _ => some ⟨0⟩
    lastVisibleSymbolAt := fun _ _ _ => none
    reference := fun _ _ e _ =>
      if e = "foo()" then [⟨.ofKind .function, some fooDeclaration⟩] else []
    findMatchingDeclaration := fun _ _ _ => []
    findMatchingDefinition := fun _ _ => none
    findMatchingClassDeclaration := fun _ _ => none
    configurationFileName := "<configuration>"
    globalSnapshot := [] }

/-- The snapshot's document of `main.cpp` for `exampleEnv`. -/
def exampleDocument : Document := { fileName := "main.cpp" }

/-- The macro `BAR`, defined at `bar.h:7`. -/
def barMacro : Macro := { name := "BAR", fileName := "bar.h", line := 7 }

/-- The document of `main.cpp` whose line 1 is `int x = BAR;`: one macro use,
no macro definition. -/
def macroUseDocument : Document :=
  { fileName := "main.cpp", macroUses := [⟨barMacro, 8, 11⟩] }

/-- The buffer `int x = BAR;` with the cursor at offset 9, inside `BAR`. -/
def macroUseEnv : Env :=
  { exampleEnv with
    text := "int x = BAR;".toList
    cursorPosition := 9
    tokens := [⟨80, 0, 3⟩, ⟨6, 4, 5⟩, ⟨30, 6, 7⟩, ⟨6, 8, 11⟩, ⟨70, 11, 12⟩]
    tokenAt := fun _ => ⟨6, 8, 11⟩
    identifierUnderCursor := "BAR"
    identifierSelectionStart := 8
    identifierSelectionEnd := 11
    expressionUnderCursor := fun _ => "BAR"
    reference := fun _ _ _ _ => [] }

/-- A document of `main.cpp` that records, on line 1, the definition of the
macro `FOO` and a use of the macro `BAR` at bytes 12 to 15. -/
def macroLineDocument : Document :=
  { fileName := "main.cpp"
    definedMacros := [⟨"FOO", "main.cpp", 1⟩]
    macroUses := [⟨barMacro, 12, 15⟩] }

/-- A buffer whose line 1 ends in `BAR` at offsets 12 to 15, with the cursor
at offset 13 inside `BAR`; nothing resolves in the scope and the model
manager's snapshot is empty. -/
def macroLineEnv : Env :=
  { exampleEnv with
    text := "#define FOO BAR".toList
    cursorPosition := 13
    tokens := [⟨71, 0, 1⟩, ⟨6, 1, 7⟩, ⟨6, 8, 11⟩, ⟨6, 12, 15⟩]
    tokenAt := fun _ => ⟨6, 12, 15⟩
    identifierUnderCursor := "BAR"
    identifierSelectionStart := 12
    identifierSelectionEnd := 15
    expressionUnderCursor := fun _ => "BAR"
    reference := fun _ _ _ _ => [] }

/-- The document of `main.cpp` whose line 1 is `#include "foo.h"`. -/
def includeDocument : Document :=
  { fileName := "main.cpp", resolvedIncludes := [⟨"/usr/include/foo.h", 1⟩] }

/-- The buffer `#include "foo.h"` with the cursor at offset 11, inside the
string literal that spans offsets 9 to 16. -/
def includeEnv : Env :=
  { exampleEnv with
    text := "#include \"foo.h\"".toList
    cursorPosition := 11
    tokens := [⟨71, 0, 1⟩, ⟨6, 1, 8⟩, ⟨11, 9, 16⟩]
    tokenAt := fun _ => ⟨11, 9, 16⟩
    identifierUnderCursor := "foo"
    identifierSelectionStart := 10
    identifierSelectionEnd := 13
    expressionUnderCursor := fun _ => ""
    reference := fun _ _ _ _ => [] }

/-- The declaration of `xy` in `int xy;` at `main.cpp:1`, column 5. -/
def xyDeclaration : Symbol :=
  { id := 2, fileName := "main.cpp", line := 1, column := 5, kind := .declaration,
    type := .ofKind .other }

/-- The buffer `int xy;` of `main.cpp` with the cursor at offset 5, on the
`y` of the declared name. The expression `xy` resolves to the declaration
under the cursor only, which is also the last visible symbol there; the
caller asks for the target to be resolved. -/
def ownDeclarationEnv : Env :=
  { exampleEnv with
    text := "int xy;".toList
    cursorPosition := 5
    tokens := [⟨80, 0, 3⟩, ⟨6, 4, 6⟩, ⟨70, 6, 7⟩]
    tokenAt := fun _ => ⟨6, 4, 6⟩
    identifierUnderCursor := "xy"
    identifierSelectionStart := 4
    identifierSelectionEnd := 6
    expressionUnderCursor := fun _ => "xy"
    resolveTarget := true
    lastVisibleSymbolAt := fun _ _ _ => some xyDeclaration
    reference := fun _ _ _ _ => [⟨.ofKind .other, some xyDeclaration⟩] }

/-- The forward declaration `class Foo;` at `main.cpp:1`, column 7. -/
def fooForward : Symbol :=
  { id := 3, fileName := "main.cpp", line := 1, column := 7,
    kind := .forwardClassDeclaration, type := .ofKind .forwardClassDeclaration }

/-- The class `Foo` declared at `foo.h:10`, column 7. -/
def fooClass : Symbol :=
  { id := 4, fileName := "foo.h", line := 10, column := 7, kind := .other,
    type := .ofKind .other }

/-- A function definition named `Foo` at `other.cpp:20`. -/
def fooFunction : Symbol :=
  { id := 5, fileName := "other.cpp", line := 20, column := 6, kind := .function,
    type := .ofKind .function }

/-- The buffer `class Foo;` with the cursor at offset 7, inside `Foo`. The
symbol finder knows a class declaration and a function definition for it. -/
def forwardClassEnv : Env :=
  { exampleEnv with
    text := "class Foo;".toList
    cursorPosition := 7
    tokens := [⟨81, 0, 5⟩, ⟨6, 6, 9⟩, ⟨70, 9, 10⟩]
    tokenAt := fun _ => ⟨6, 6, 9⟩
    identifierUnderCursor := "Foo"
    identifierSelectionStart := 6
    identifierSelectionEnd := 9
    expressionUnderCursor := fun _ => "Foo"
    resolveTarget := true
    lastVisibleSymbolAt := fun _ _ _ => some fooForward
    reference := fun _ _ _ _ => [⟨.ofKind .forwardClassDeclaration, some fooForward⟩]
    findMatchingDefinition := fun _ _ => some fooFunction
    findMatchingClassDeclaration := fun _ _ => some fooClass }

/-- The declaration `void bar();` at `bar.h:4`, column 6. -/
def barDeclaration : Symbol :=
  { id := 6, fileName := "bar.h", line := 4, column := 6, kind := .declaration,
    type := .ofKind .function }

/-- The function symbol of the definition `void bar() {}` at `main.cpp:1`. -/
def barFunction : Symbol :=
  { id := 7, fileName := "main.cpp", line := 1, column := 6, kind := .function,
    type := .ofKind .function }

/-- The AST path to the name in `void bar() {}`: translation unit, function
definition, declarator, declarator id, simple name (token 1). -/
def barPath : List AST :=
  [ { id := 10, kind := .other, firstToken := 0, lastToken := 6 },
    { id := 11, kind := .functionDefinition (some barFunction), firstToken := 0, lastToken := 6 },
    { id := 12, kind := .declarator [some (.functionDeclarator (some barFunction))],
      firstToken := 1, lastToken := 4 },
    { id := 13, kind := .other, firstToken := 1, lastToken := 2 },
    { id := 14, kind := .name, firstToken := 1, lastToken := 2 } ]

/-- The semantic document of `main.cpp` for `void bar() {}`. -/
def barDocument : Document := { fileName := "main.cpp", hasAst := true }

/-- The start positions (line, column) of the tokens of `void bar() {}`. -/
def barTokenStart (index : Nat) : Nat × Nat :=
  match index with
  | 0 => (1, 1)
  | 1 => (1, 6)
  | 2 => (1, 9)
  | 3 => (1, 10)
  | 4 => (1, 12)
  | _ => (1, 13)

/-- The end positions (line, column) of the tokens of `void bar() {}`. -/
def barTokenEnd (index : Nat) : Nat × Nat :=
  match index with
  | 0 => (1, 5)
  | 1 => (1, 9)
  | 2 => (1, 10)
  | 3 => (1, 11)
  | 4 => (1, 13)
  | _ => (1, 14)

/-- The buffer `void bar() {}` with the cursor at offset 5, on the name of the
function definition; the name's token, token 1, starts at line 1, column 6
and ends at column 9. The symbol finder knows one matching declaration. -/
def definitionEnv : Env :=
  { exampleEnv with
    text := "void bar() {}".toList
    cursorPosition := 5
    tokens := [⟨82, 0, 4⟩, ⟨6, 5, 8⟩, ⟨47, 8, 9⟩, ⟨65, 9, 10⟩, ⟨72, 11, 12⟩, ⟨73, 12, 13⟩]
    tokenAt := fun _ => ⟨6, 5, 8⟩
    identifierUnderCursor := "bar"
    identifierSelectionStart := 5
    identifierSelectionEnd := 8
    expressionUnderCursor := fun _ => "bar"
    document := some barDocument
    astPath := fun _ => barPath
    getTokenStartPosition := fun _ index => barTokenStart index
    getTokenEndPosition := fun _ index => barTokenEnd index
    reference := fun _ _ _ _ => [⟨.ofKind .function, some barFunction⟩]
    findMatchingDeclaration := fun _ _ _ => [barDeclaration] }

/-- A symbol whose file name is empty. -/
def unnamedFileSymbol : Symbol :=
  { id := 8, fileName := "", line := 3, column := 1, kind := .declaration,
    type := .ofKind .other }

/-- The buffer `foo;` with the cursor at offset 1; the name resolves to a
symbol without a file name. -/
def unnamedFileEnv : Env :=
  { exampleEnv with
    text := "foo;".toList
    cursorPosition := 1
    tokens := [⟨6, 0, 3⟩, ⟨70, 3, 4⟩]
    tokenAt := fun _ => ⟨6, 0, 3⟩
    identifierUnderCursor := "foo"
    identifierSelectionStart := 0
    identifierSelectionEnd := 3
    expressionUnderCursor := fun _ => "foo"
    reference := fun _ _ _ _ => [⟨.ofKind .other, some unnamedFileSymbol⟩] }

/-- `definitionEnv` in a project whose symbols all live in `main.cpp`. -/
def singleFileEnv : Env :=
  { definitionEnv with
    linkToSymbol := fun symbol => { symbolLink symbol with targetFileName := "main.cpp" } }

/-- A link is well formed if it has a valid target or its span is still the
default one. -/
def Link.wellFormed (l : Link) : Prop :=
  l.hasValidTarget = true ∨ (l.linkTextStart = -1 ∧ l.linkTextEnd = -1)

/-! ## The claims' own words -/

/-- Case (a) of the override scan, in the claim's words: `d` is a declaration
or a function, located in the editor's own file on the cursor's line, and the
cursor's column is at or after the symbol's column. -/
def OnCursorDeclaration (env : Env) (lineNumber positionInBlock : Int) (d : Symbol) : Prop :=
  (d.kind = .declaration ∨ d.kind = .function) ∧ env.filePath = d.fileName
    ∧ toUnsigned lineNumber = d.line ∧ d.column ≤ toUnsigned positionInBlock

/-- Case (b) of the override scan, in the claim's words: `d` is a using
declaration whose (line, column) is lexicographically below the (line,
column) that `convertPosition` gives for the token's begin offset. -/
def UsingDeclarationBefore (env : Env) (beginOfToken : Int) (d : Symbol) : Prop :=
  d.kind = .usingDeclaration
    ∧ (d.line < toUnsigned (env.convertPosition beginOfToken).1
      ∨ (toUnsigned (env.convertPosition beginOfToken).1 = d.line
        ∧ d.column < toUnsigned (env.convertPosition beginOfToken).2))

/-- A candidate overrides the default pick if it has a declaration symbol
that is of case (a) or of case (b). -/
def Overrides (env : Env) (lineNumber positionInBlock beginOfToken : Int)
    (r : LookupItem) : Prop :=
  ∃ d, r.declaration = some d
    ∧ (OnCursorDeclaration env lineNumber positionInBlock d
      ∨ UsingDeclarationBefore env beginOfToken d)

/-- The number of opening minus the number of closing parentheses among the
tokens. -/
def parenDepth (K : TokenKinds) : List Token → Int
  | [] => 0
  | tk :: rest =>
    (if tk.kind = K.T_LPAREN then 1 else if tk.kind = K.T_RPAREN then -1 else 0)
      + parenDepth K rest

/-- The parentheses of `tokens[a..j]` (both ends included) are balanced. -/
def BalancedBetween (K : TokenKinds) (tokens : List Token) (a j : Nat) : Prop :=
  parenDepth K ((tokens.drop a).take (j + 1 - a)) = 0

/-- The lexer's tokens of the line `SIGNAL(foo(int))`. -/
def signalTokens : List Token :=
  [⟨153, 0, 6⟩, ⟨47, 6, 7⟩, ⟨6, 7, 10⟩, ⟨47, 10, 11⟩, ⟨100, 11, 14⟩, ⟨65, 14, 15⟩,
    ⟨65, 15, 16⟩]

/-- The buffer `SIGNAL(foo(int))` with the cursor at offset 7, the first
character of `foo`, directly after the opening parenthesis. -/
def signalStartEnv : Env :=
  { exampleEnv with
    text := "SIGNAL(foo(int))".toList
    cursorPosition := 7
    tokens := signalTokens
    tokenAt := fun _ => ⟨6, 7, 10⟩
    identifierUnderCursor := "foo"
    identifierSelectionStart := 7
    identifierSelectionEnd := 10
    expressionUnderCursor := fun _ => "foo"
    reference := fun _ _ _ _ => [] }

/-- The same buffer with the cursor at offset 8, inside `foo`. -/
def signalInsideEnv : Env :=
  { signalStartEnv with cursorPosition := 8 }

/-- The same buffer with the cursor at offset 10, the end of `foo`. -/
def signalEndEnv : Env :=
  { signalStartEnv with cursorPosition := 10 }

/-- The number of documents of the snapshot whose file name is not yet in
`processed`: the measure that bounds the depth of `findMacroLink_helper`. -/
def unprocessedCount (snapshot : Snapshot) (processed : List String) : Nat :=
  snapshot.countP (fun d => decide (d.fileName ∉ processed))

/-- The loop over the includes of the reference traversal, from the list's
head on: the documents visited, in order, and the files seen. -/
def preorderLoop (step : Option Document → List String → List Document × List String)
    (snapshot : Snapshot) : List Include → List String → List Document × List String
  | [], seen => ([], seen)
  | i :: rest, seen =>
    let r := step (snapshot.document i.resolvedFileName) seen
    let r2 := preorderLoop step snapshot rest r.2
    (r.1 ++ r2.1, r2.2)

/-- The claim's traversal, independent of any macro name: the depth-first
pre-order from a document, in which a document's resolved includes are
explored from the last include to the first and a file already seen is not
visited again. The first component lists the documents in the order of their
visit, the second the file names seen. The first argument bounds the depth. -/
def depthFirstPreorder (snapshot : Snapshot) :
    Nat → Option Document → List String → List Document × List String
  | 0, _, seen => ([], seen)
  | _, none, seen => ([], seen)
  | fuel + 1, some doc, seen =>
    if doc.fileName ∉ seen then
      let r := preorderLoop (depthFirstPreorder snapshot fuel) snapshot
        doc.resolvedIncludes.reverse (doc.fileName :: seen)
      (doc :: r.1, r.2)
    else ([], seen)

/-- The first macro of the given name in the first document of the list that
defines one. -/
def firstDefinition (name : String) (order : List Document) : Option Macro :=
  order.findSome? (fun d => d.definedMacros.find? (fun m => m.name == name))

/-- The link to a macro's definition: defining file and defining line, the
line as the `int` field of the link holds it. -/
def macroLink (m : Macro) : Link :=
  { targetFileName := m.fileName, targetLine := toInt32 m.line }

/-- A snapshot with an include cycle between `a.h` and `b.h` and an include
of a file that the snapshot lacks; `b.h` defines `M` at line 5, `c.h`
defines `N` at line 9. -/
def cyclicSnapshot : Snapshot :=
  [ { fileName := "a.h"
      resolvedIncludes := [⟨"b.h", 1⟩, ⟨"c.h", 2⟩, ⟨"missing.h", 3⟩] },
    { fileName := "b.h", resolvedIncludes := [⟨"a.h", 1⟩]
      definedMacros := [⟨"M", "b.h", 5⟩] },
    { fileName := "c.h", resolvedIncludes := [⟨"a.h", 1⟩, ⟨"b.h", 2⟩]
      definedMacros := [⟨"N", "c.h", 9⟩, ⟨"M", "c.h", 11⟩] } ]

/-- The document of `main.cpp`, which includes `a.h`. -/
def mainDocument : Document := { fileName := "main.cpp", resolvedIncludes := [⟨"a.h", 1⟩] }

/-- `exampleEnv` with `cyclicSnapshot` as the model manager's snapshot. -/
def cyclicEnv : Env := { exampleEnv with globalSnapshot := cyclicSnapshot }

/-- Every macro of the given name that the document defines carries a
non-empty defining file name. -/
def NamedMacrosHaveFile (name : String) (d : Document) : Prop :=
  ∀ m ∈ d.definedMacros, m.name = name → m.fileName ≠ ""

/-- The search result `found` agrees with the reference traversal `visited`:
if the first definition of the name along the traversal is `m`, the link is
the link to `m`; if there is none, the link is empty and the files processed
are the files seen. -/
def SearchAgrees (name : String) (found : Link × List String)
    (visited : List Document × List String) : Prop :=
  (∀ m, firstDefinition name visited.1 = some m →
      found.1 = macroLink m ∧ m.fileName ≠ "")
    ∧ (firstDefinition name visited.1 = none → found = ({}, visited.2))

instance (K : TokenKinds) (tokens : List Token) (a j : Nat) :
    Decidable (BalancedBetween K tokens a j) := by
  unfold BalancedBetween
  infer_instance

instance (name : String) (d : Document) : Decidable (NamedMacrosHaveFile name d) := by
  unfold NamedMacrosHaveFile
  infer_instance

/-- The AST path to the parameter name `x` in `void bar(int x) {}`:
translation unit, function definition, declarator, function declarator,
parameter declaration, declarator, declarator id, simple name. -/
def parameterPath : List AST :=
  [ { id := 10, kind := .other, firstToken := 0, lastToken := 8 },
    { id := 11, kind := .functionDefinition (some barFunction), firstToken := 0, lastToken := 8 },
    { id := 12, kind := .declarator [some (.functionDeclarator (some barFunction))],
      firstToken := 1, lastToken := 6 },
    { id := 15, kind := .other, firstToken := 2, lastToken := 6 },
    { id := 16, kind := .parameterDeclaration, firstToken := 3, lastToken := 5 },
    { id := 17, kind := .declarator [], firstToken := 4, lastToken := 5 },
    { id := 18, kind := .other, firstToken := 4, lastToken := 5 },
    { id := 19, kind := .name, firstToken := 4, lastToken := 5 } ]

/-- `definitionEnv` with the AST path of a cursor on a parameter name. -/
def parameterEnv : Env := { definitionEnv with astPath := fun _ => parameterPath }

end FollowSymbol

namespace Beautifier

/-! ## Configuration file search (`configurationdetector.cpp`)

The project tree is a tree of nodes. A folder's parent pointers are given by
the list of its ancestors, nearest first: the parent of the last one is null. -/

/-- `ProjectExplorer::FileNode`: its address and the file name of its path. -/
structure FileNode where
  id : Nat
  fileName : String
deriving DecidableEq, Repr

/-- `ProjectExplorer::Node`: a file node, or a folder node with its address
and its `nodes()`. -/
inductive Node where
  | file (f : FileNode)
  | folder (id : Nat) (nodes : List Node)
deriving Repr

/-- `ProjectExplorer::FolderNode`: the view of a folder node. -/
structure FolderNode where
  id : Nat
  nodes : List Node
deriving Repr

/-- The result of a call: the pointer returned, or the dereference of a null
`FolderNode` pointer (`from->nodes()` with `from` null). -/
inductive Outcome where
  | returned (config : Option FileNode)
  | nullDereference
deriving DecidableEq, Repr

/-- The first loop of the three-argument `findConfigFileNode`: the first file
among `nodes` whose file name matches the mask. A file node is never the
folder `visited`, so the test `node == visited` skips no file. -/
def firstMatchingFile (configFileMask : String → Bool) : List Node → Option FileNode
  | [] => none
  | .file f :: rest =>
    if configFileMask f.fileName then some f else firstMatchingFile configFileMask rest
  | .folder _ _ :: rest => firstMatchingFile configFileMask rest

mutual
/-- The three-argument `findConfigFileNode(configFileMask, from, visited)` for
the folder node `from`: the file found, and the folders whose `nodes()` were
enumerated, in order. -/
def searchFolder (configFileMask : String → Bool) (visited : Option Nat) :
    Node → Option FileNode × List Nat
  | .file _ => (none, [])
  | .folder id nodes =>
    match firstMatchingFile configFileMask nodes with
    | some f => (some f, [id])
    | none =>
      let r := searchSubfolders configFileMask visited nodes
      (r.1, id :: r.2)
/-- The second loop: the folders among `nodes`, except `visited`, searched in
order until one yields a file. -/
def searchSubfolders (configFileMask : String → Bool) (visited : Option Nat) :
    List Node → Option FileNode × List Nat
  | [] => (none, [])
  | .file _ :: rest => searchSubfolders configFileMask visited rest
  | .folder id nodes :: rest =>
    if visited = some id then searchSubfolders configFileMask visited rest
    else
      let r := searchFolder configFileMask visited (.folder id nodes)
      match r.1 with
      | some f => (some f, r.2)
      | none =>
        let r2 := searchSubfolders configFileMask visited rest
        (r2.1, r.2 ++ r2.2)
end

/-- The three-argument `findConfigFileNode` on a `FolderNode`. -/
def findConfigFileNodeVisited (configFileMask : String → Bool) (from_ : FolderNode)
    (visited : Option Nat) : Option FileNode × List Nat :=
  searchFolder configFileMask visited (.folder from_.id from_.nodes)

/-- The `while (!config && visited != root)` loop of the two-argument
`findConfigFileNode`, at its test: `ancestors` are the ancestors of `current`,
nearest first, so `current->parentFolderNode()` is their head, or null. The
second component collects the folders enumerated. -/
def climb (configFileMask : String → Bool) (root : Nat) :
    Option FileNode → Option Nat → FolderNode → List FolderNode → List Nat →
      Outcome × List Nat
  | config, visited, _, [], enumerated =>
    if config.isSome ∨ visited = some root then (.returned config, enumerated)
    else (.nullDereference, enumerated)
  | config, visited, current, parent :: above, enumerated =>
    if config.isSome ∨ visited = some root then (.returned config, enumerated)
    else
      let r := findConfigFileNodeVisited configFileMask parent (some current.id)
      climb configFileMask root r.1 (some current.id) parent above (enumerated ++ r.2)

/-- The two-argument `findConfigFileNode(configFileMask, from)`. `project` is
`ProjectTree::currentProject()`, given by its `rootProjectNode()`; `from_`
comes with its ancestors. -/
def findConfigFileNode (configFileMask : String → Bool) (project : Option (Option Nat))
    (from_ : Option (FolderNode × List FolderNode)) : Outcome × List Nat :=
  match from_ with
  | none => (.returned none, [])
  | some (start, ancestors) =>
    match project with
    | none => (.returned none, [])
    | some none => (.returned none, [])
    | some (some root) =>
      let r := findConfigFileNodeVisited configFileMask start none
      climb configFileMask root r.1 none start ancestors r.2

mutual
/-- Some file of the node's subtree matches the mask. -/
def Node.hasMatch (configFileMask : String → Bool) : Node → Bool
  | .file f => configFileMask f.fileName
  | .folder _ nodes => anyMatch configFileMask nodes
/-- Some file below one of the nodes matches the mask. -/
def anyMatch (configFileMask : String → Bool) : List Node → Bool
  | [] => false
  | node :: rest => node.hasMatch configFileMask || anyMatch configFileMask rest
end

/-- The mask `uncrustify.cfg`. -/
def cfgMask (fileName : String) : Bool := fileName == "uncrustify.cfg"

/-- The folder `src` (address 2) with one source file. -/
def srcFolder : FolderNode := { id := 2, nodes := [.file ⟨11, "util.cpp"⟩] }

/-- The root project node (address 1): `main.cpp` and the folder `src`. It
has no parent folder. -/
def rootFolder : FolderNode :=
  { id := 1, nodes := [.file ⟨10, "main.cpp"⟩, .folder 2 [.file ⟨11, "util.cpp"⟩]] }

/-- A folder above the root project node (address 0) that also holds another
project (address 5) with a file `uncrustify.cfg`. -/
def sessionFolder : FolderNode :=
  { id := 0
    nodes := [.folder 1 [.file ⟨10, "main.cpp"⟩, .folder 2 [.file ⟨11, "util.cpp"⟩]],
      .folder 5 [.file ⟨50, "uncrustify.cfg"⟩]] }

end Beautifier

namespace FollowSymbol

/-! ## Theorems -/

/-! ## Snapshot insertion -/

theorem Snapshot.insert_insert (s : Snapshot) (doc : Document) :
    (s.insert doc).insert doc = s.insert doc := by
  simp [Snapshot.insert, List.filter_filter]

theorem attemptFuncDeclDef_snd (env : Env) (doc : Document) (s : Snapshot) :
    (attemptFuncDeclDef env doc s).2 = s.insert doc := by
  unfold attemptFuncDeclDef
  simp only []
  repeat' split
  all_goals rfl

theorem attemptFuncDeclDef_insert (env : Env) (doc : Document) (s : Snapshot) :
    attemptFuncDeclDef env doc (s.insert doc) = attemptFuncDeclDef env doc s := by
  unfold attemptFuncDeclDef
  simp only [Snapshot.insert_insert]

theorem fastPath_fastPath (env : Env) (s : Snapshot) :
    fastPath env (fastPath env s).2 = fastPath env s := by
  unfold fastPath
  cases hd : env.document with
  | none => rfl
  | some doc =>
    simp only []
    by_cases hast : doc.hasAst = true
    · by_cases hp : env.characterAt (env.skipFrom env.isSpace env.identifierEnd) = some '('
      · simp only [hast, hp, if_true, attemptFuncDeclDef_snd, attemptFuncDeclDef_insert]
      · simp only [hast, hp, if_true, if_false]
    · simp [hast]

theorem findLink_snd (env : Env) (s : Snapshot) :
    (findLink env s).2 = (fastPath env s).2 := by
  unfold findLink
  simp only []
  split <;> rfl

/-- The loop of `findDeclarator` stops at the innermost declarator among
`path[1..n]`: if `path[i]` is a declarator, `0 < i <= n`, and no node of
`path[i+1..n]` is one, the result is its postfix list and `path[i-1]`. -/
theorem findDeclarator_innermost (path : List AST) (i : Nat) (node parent : AST)
    (postfixList : List (Option PostfixDeclarator)) (hi : 0 < i)
    (hnode : path[i]? = some node) (hkind : node.kind = .declarator postfixList)
    (hparent : path[i - 1]? = some parent) :
    ∀ n, i ≤ n →
      (∀ j a, i < j → j ≤ n → path[j]? = some a → ∀ q, a.kind ≠ .declarator q) →
      findDeclarator path n = some (postfixList, parent) := by
  intro n
  induction n with
  | zero => intro hin; omega
  | succ m ih =>
    intro hin hnone
    by_cases him : i = m + 1
    · subst him
      simp only [Nat.add_sub_cancel] at hparent
      simp [findDeclarator, hnode, hparent, hkind]
    · have hle : i ≤ m := by omega
      have hrec := ih hle (fun j a hj hjm => hnone j a hj (by omega))
      cases h1 : path[m + 1]? with
      | none => simpa [findDeclarator, h1] using hrec
      | some a =>
        cases h2 : path[m]? with
        | none => simpa [findDeclarator, h1, h2] using hrec
        | some b =>
          have hna := hnone (m + 1) a (by omega) (Nat.le_refl _) h1
          cases hk : a.kind with
          | declarator q => exact absurd hk (hna q)
          | _ => simpa [findDeclarator, h1, h2, hk] using hrec

theorem findLink_of_no_link_text (env : Env) (s : Snapshot)
    (h : (fastPath env s).1.hasValidLinkText = false) :
    (findLink env s).1 = resolveLink env (fastPath env s).2 (fastPath env s).1 := by
  unfold findLink
  simp [h]

theorem TokenKinds.identifier_ne_string (K : TokenKinds) :
    K.T_IDENTIFIER ≠ K.T_STRING_LITERAL ∧ K.T_IDENTIFIER ≠ K.T_ANGLE_STRING_LITERAL := by
  have h := K.distinct
  simp only [List.nodup_cons, List.mem_cons, not_or] at h
  exact ⟨h.1.1, h.1.2.1⟩

/-- An identifier token passes the block `if (!recognizedQtMethod)`. -/
theorem classifyToken_identifier (env : Env) (doc : Document) (link : Link)
    (h : (tokenUnderCursor env).kind = env.kinds.T_IDENTIFIER) :
    classifyToken env doc link =
      .proceed ⟨env.cursorBlockPosition + (tokenUnderCursor env).begin,
        env.cursorBlockPosition + (tokenUnderCursor env).end_,
        env.cursorBlockPosition + (tokenUnderCursor env).end_⟩ := by
  have hne := env.kinds.identifier_ne_string
  unfold classifyToken
  simp [h, hne.1, hne.2]

/-- An `unsigned` value below `2^31` is stored in an `int` unchanged. -/
theorem toInt32_of_lt (n : Nat) (h : n < 2147483648) : toInt32 (n : Int) = n := by
  unfold toInt32
  omega

/-- C2, as amended. The fast path did not return, no Qt method was
recognized, the token under the cursor is an identifier, the selected
document has NO macro definition at the cursor's line, and it records a
macro use covering the offset just before the token's end whose macro is not
from the configuration pseudo-file: `findLink` returns the link to the
macro's file and line, spanning the use. The `int` fields of the link hold
the macro's `unsigned` line and the use's `unsigned` offsets as converted to
`int`, which are the same numbers when these are below `2^31`. -/
theorem findLink_macro_use (env : Env) (snapshot : Snapshot) (doc : Document)
    (use : MacroUse)
    (hfast : (fastPath env snapshot).1.hasValidLinkText = false)
    (hqt : (recognizeQtMethod env env.positionInBlock env.identifierEnd).1 = false)
    (hdoc : selectDocument env (fastPath env snapshot).2 = some doc)
    (htoken : (tokenUnderCursor env).kind = env.kinds.T_IDENTIFIER)
    (hnodef : doc.findMacroDefinitionAt (toUnsigned env.lineNumber) = none)
    (huse : doc.findMacroUseAt
      (toUnsigned (env.cursorBlockPosition + (tokenUnderCursor env).end_ - 1)) = some use)
    (hcfg : use.usedMacro.fileName ≠ env.configurationFileName) :
    ((findLink env snapshot).1.targetFileName = use.usedMacro.fileName
      ∧ (findLink env snapshot).1.targetLine = toInt32 use.usedMacro.line
      ∧ (findLink env snapshot).1.linkTextStart = toInt32 use.begin
      ∧ (findLink env snapshot).1.linkTextEnd = toInt32 use.end_)
    ∧ (use.usedMacro.line < 2147483648 →
        (findLink env snapshot).1.targetLine = use.usedMacro.line)
    ∧ (use.begin < 2147483648 → (findLink env snapshot).1.linkTextStart = use.begin)
    ∧ (use.end_ < 2147483648 → (findLink env snapshot).1.linkTextEnd = use.end_) := by
  have hlink : (findLink env snapshot).1 =
      { (fastPath env snapshot).1 with
        targetFileName := use.usedMacro.fileName
        targetLine := toInt32 use.usedMacro.line
        linkTextStart := toInt32 use.begin
        linkTextEnd := toInt32 use.end_ } := by
    rw [findLink_of_no_link_text env snapshot hfast]
    unfold resolveLink
    simp [hdoc, tokenStep, hqt, classifyToken_identifier env doc _ htoken, macroStep, hnodef,
      huse, hcfg]
  rw [hlink]
  exact ⟨⟨rfl, rfl, rfl, rfl⟩, fun h => toInt32_of_lt _ h, fun h => toInt32_of_lt _ h,
    fun h => toInt32_of_lt _ h⟩

theorem findLink_macro_use_witness :
    (findLink macroUseEnv [macroUseDocument]).1.targetFileName = "bar.h"
      ∧ (findLink macroUseEnv [macroUseDocument]).1.targetLine = 7
      ∧ (findLink macroUseEnv [macroUseDocument]).1.linkTextStart = 8
      ∧ (findLink macroUseEnv [macroUseDocument]).1.linkTextEnd = 11 :=
  (findLink_macro_use macroUseEnv [macroUseDocument] macroUseDocument ⟨barMacro, 8, 11⟩
    (by decide) (by decide) (by decide) (by decide) (by decide) (by decide) (by decide)).1

/-- C2 as stated fails: the premises of the claim hold for a macro use on a
line on which the document records the definition of another macro, and
`findLink` returns the empty link instead of the link to `bar.h:7`. -/
theorem findLink_macro_use_on_definition_line :
    (fastPath macroLineEnv [macroLineDocument]).1.hasValidLinkText = false
      ∧ (recognizeQtMethod macroLineEnv macroLineEnv.positionInBlock
          macroLineEnv.identifierEnd).1 = false
      ∧ selectDocument macroLineEnv (fastPath macroLineEnv [macroLineDocument]).2
          = some macroLineDocument
      ∧ (tokenUnderCursor macroLineEnv).kind = macroLineEnv.kinds.T_IDENTIFIER
      ∧ macroLineDocument.findMacroUseAt
          (toUnsigned (macroLineEnv.cursorBlockPosition
            + (tokenUnderCursor macroLineEnv).end_ - 1)) = some ⟨barMacro, 12, 15⟩
      ∧ barMacro.fileName ≠ macroLineEnv.configurationFileName
      ∧ macroLineDocument.findMacroDefinitionAt (toUnsigned macroLineEnv.lineNumber)
          = some ⟨"FOO", "main.cpp", 1⟩
      ∧ (findLink macroLineEnv [macroLineDocument]).1 = {}
      ∧ (findLink macroLineEnv [macroLineDocument]).1.targetFileName ≠ barMacro.fileName := by
  decide

/-- C3. The fast path did not return, no Qt method was recognized, the token
under the cursor is a string or angle-string literal, and `incl` is the first
resolved include of the selected document on the cursor's 1-based line:
`findLink` returns a link to `incl`'s resolved file whose span is the token
without its first and last character. -/
theorem findLink_include (env : Env) (snapshot : Snapshot) (doc : Document)
    (incl : Include) (before after : List Include)
    (hfast : (fastPath env snapshot).1.hasValidLinkText = false)
    (hqt : (recognizeQtMethod env env.positionInBlock env.identifierEnd).1 = false)
    (hdoc : selectDocument env (fastPath env snapshot).2 = some doc)
    (htoken : (tokenUnderCursor env).kind = env.kinds.T_STRING_LITERAL
      ∨ (tokenUnderCursor env).kind = env.kinds.T_ANGLE_STRING_LITERAL)
    (hincludes : doc.resolvedIncludes = before ++ incl :: after)
    (hline : incl.line = toUnsigned (env.cursorBlockNumber + 1))
    (hfirst : ∀ i ∈ before, i.line ≠ toUnsigned (env.cursorBlockNumber + 1)) :
    (findLink env snapshot).1.targetFileName = incl.resolvedFileName
      ∧ (findLink env snapshot).1.linkTextStart
          = env.cursorBlockPosition + (tokenUnderCursor env).begin + 1
      ∧ (findLink env snapshot).1.linkTextEnd
          = env.cursorBlockPosition + (tokenUnderCursor env).end_ - 1 := by
  have hfind : doc.resolvedIncludes.find?
      (fun i => i.line == toUnsigned (env.cursorBlockNumber + 1)) = some incl := by
    rw [hincludes, List.find?_append]
    have hnone : before.find? (fun i => i.line == toUnsigned (env.cursorBlockNumber + 1))
        = none := by
      rw [List.find?_eq_none]
      intro i hi
      simpa using hfirst i hi
    simp [hnone, hline]
  rw [findLink_of_no_link_text env snapshot hfast]
  unfold resolveLink
  simp [hdoc, tokenStep, hqt, classifyToken, htoken, hfind]

theorem findLink_include_witness :
    (findLink includeEnv [includeDocument]).1.targetFileName = "/usr/include/foo.h"
      ∧ (findLink includeEnv [includeDocument]).1.linkTextStart = 10
      ∧ (findLink includeEnv [includeDocument]).1.linkTextEnd = 15 :=
  findLink_include includeEnv [includeDocument] includeDocument ⟨"/usr/include/foo.h", 1⟩
    [] [] (by decide) (by decide) (by decide) (by decide) (by decide) (by decide)
    (by simp)

theorem findLink_of_candidates (env : Env) (snapshot : Snapshot) (doc : Document)
    (span : TokenSpan) (scope : Scope)
    (hfast : (fastPath env snapshot).1.hasValidLinkText = false)
    (hdoc : selectDocument env (fastPath env snapshot).2 = some doc)
    (htoken : tokenStep env doc (fastPath env snapshot).1 = .proceed span)
    (hstep : macroStep env doc (fastPath env snapshot).1 (toUnsigned env.lineNumber)
      span.endOfToken = none)
    (hscope : env.scopeAt doc (toUnsigned env.lineNumber)
      (toUnsigned (env.positionInBlock + 1)) = some scope) :
    (findLink env snapshot).1 =
      candidatesLink env doc (fastPath env snapshot).2 env.lineNumber env.positionInBlock span
        (env.reference doc (fastPath env snapshot).2
          (expressionToResolve env span.tcPosition) scope) := by
  rw [findLink_of_no_link_text env snapshot hfast]
  unfold resolveLink
  simp [hdoc, htoken, hstep, lookupStep, hscope]

/-- C4, as amended. The lookup step is reached, the expression resolves to
the single declaration `d` that the cursor is on (same file, same line,
cursor column at or after the symbol's column), `resolveTarget` is true and
no definition other than the last visible symbol is found: `findLink` returns
the link to `d` itself, spanning the token. -/
theorem findLink_on_own_declaration (env : Env) (snapshot : Snapshot) (doc : Document)
    (span : TokenSpan) (scope : Scope) (ty : FullySpecifiedType) (d : Symbol)
    (hfast : (fastPath env snapshot).1.hasValidLinkText = false)
    (hdoc : selectDocument env (fastPath env snapshot).2 = some doc)
    (htoken : tokenStep env doc (fastPath env snapshot).1 = .proceed span)
    (hstep : macroStep env doc (fastPath env snapshot).1 (toUnsigned env.lineNumber)
      span.endOfToken = none)
    (hscope : env.scopeAt doc (toUnsigned env.lineNumber)
      (toUnsigned (env.positionInBlock + 1)) = some scope)
    (hresolved : env.reference doc (fastPath env snapshot).2
      (expressionToResolve env span.tcPosition) scope = [⟨ty, some d⟩])
    (hkind : d.isDeclaration = true ∨ d.isFunction = true)
    (hfile : env.filePath = d.fileName)
    (hline : toUnsigned env.lineNumber = d.line)
    (hcolumn : d.column ≤ toUnsigned env.positionInBlock)
    (hresolve : env.resolveTarget = true)
    (hnoother : findDefinition env d (fastPath env snapshot).2 = none
      ∨ findDefinition env d (fastPath env snapshot).2
        = env.lastVisibleSymbolAt doc (toUnsigned env.lineNumber)
            (toUnsigned (env.positionInBlock + 1))) :
    (findLink env snapshot).1 =
      { env.linkToSymbol d with
        linkTextStart := span.beginOfToken
        linkTextEnd := span.endOfToken } := by
  rw [findLink_of_candidates env snapshot doc span scope hfast hdoc htoken hstep hscope,
    hresolved]
  have hover : overridesResult env env.lineNumber env.positionInBlock span.beginOfToken
      ⟨ty, some d⟩ = true := by
    unfold overridesResult
    have hk : (d.isDeclaration || d.isFunction) = true := by
      rcases hkind with h | h <;> simp [h]
    simp [hk, hfile, hline, hcolumn]
  have hnotfwd : d.isForwardClassDeclaration = false := by
    unfold Symbol.isForwardClassDeclaration
    unfold Symbol.isDeclaration Symbol.isFunction at hkind
    rcases hkind with h | h <;> simp at h <;> simp [h]
  have htarget : linkTargetSymbol env doc (fastPath env snapshot).2
      (toUnsigned env.lineNumber) (toUnsigned (env.positionInBlock + 1)) d = d := by
    unfold linkTargetSymbol
    rcases hnoother with h | h
    · simp [hresolve, hnotfwd, h]
    · simp [hresolve, hnotfwd, h]
  simp [candidatesLink, chooseCandidate, List.find?, hover, htarget]

theorem findLink_on_own_declaration_witness :
    (findLink ownDeclarationEnv [exampleDocument]).1 =
      { linkTextStart := 4, linkTextEnd := 6, targetFileName := "main.cpp", targetLine := 1,
        targetColumn := 4 } :=
  findLink_on_own_declaration ownDeclarationEnv [exampleDocument] exampleDocument ⟨4, 6, 6⟩
    ⟨0⟩ (.ofKind .other) xyDeclaration (by decide) (by decide) (by decide) (by decide)
    (by decide) (by decide) (by decide) (by decide) (by decide) (by decide) (by decide)
    (by decide)

/-- C4 as stated fails: with the cursor on the declaration of `xy`, the only
candidate, `findLink` returns a link with a valid target, the declaration
itself at `main.cpp:1`, not the empty link. -/
theorem findLink_own_declaration_not_empty :
    (fastPath ownDeclarationEnv [exampleDocument]).1.hasValidLinkText = false
      ∧ selectDocument ownDeclarationEnv (fastPath ownDeclarationEnv [exampleDocument]).2
        = some exampleDocument
      ∧ tokenStep ownDeclarationEnv exampleDocument
          (fastPath ownDeclarationEnv [exampleDocument]).1 = .proceed ⟨4, 6, 6⟩
      ∧ macroStep ownDeclarationEnv exampleDocument
          (fastPath ownDeclarationEnv [exampleDocument]).1
          (toUnsigned ownDeclarationEnv.lineNumber) 6 = none
      ∧ ownDeclarationEnv.scopeAt exampleDocument (toUnsigned ownDeclarationEnv.lineNumber)
          (toUnsigned (ownDeclarationEnv.positionInBlock + 1)) = some ⟨0⟩
      ∧ ownDeclarationEnv.reference exampleDocument [exampleDocument]
          (expressionToResolve ownDeclarationEnv 6) ⟨0⟩
        = [⟨.ofKind .other, some xyDeclaration⟩]
      ∧ xyDeclaration.isDeclaration = true
      ∧ ownDeclarationEnv.filePath = xyDeclaration.fileName
      ∧ toUnsigned ownDeclarationEnv.lineNumber = xyDeclaration.line
      ∧ xyDeclaration.column ≤ toUnsigned ownDeclarationEnv.positionInBlock
      ∧ ownDeclarationEnv.resolveTarget = true
      ∧ findDefinition ownDeclarationEnv xyDeclaration [exampleDocument] = none
      ∧ ownDeclarationEnv.lastVisibleSymbolAt exampleDocument 1 6 = some xyDeclaration
      ∧ (findLink ownDeclarationEnv [exampleDocument]).1 ≠ {}
      ∧ (findLink ownDeclarationEnv [exampleDocument]).1.hasValidTarget = true
      ∧ (findLink ownDeclarationEnv [exampleDocument]).1.targetFileName = "main.cpp"
      ∧ (findLink ownDeclarationEnv [exampleDocument]).1.targetLine = 1 := by
  decide

/-- C5. The lookup step is reached, the chosen candidate's symbol is a
forward class declaration and `resolveTarget` is true: the link is built
from the symbol that `findMatchingClassDeclaration` returns when there is
one, and from the forward declaration itself when there is none, whatever
`findMatchingDefinition` and `lastVisibleSymbolAt` return. -/
theorem findLink_forward_class_declaration (env : Env) (snapshot : Snapshot)
    (doc : Document) (span : TokenSpan) (scope : Scope) (result : LookupItem)
    (symbol : Symbol)
    (hfast : (fastPath env snapshot).1.hasValidLinkText = false)
    (hdoc : selectDocument env (fastPath env snapshot).2 = some doc)
    (htoken : tokenStep env doc (fastPath env snapshot).1 = .proceed span)
    (hstep : macroStep env doc (fastPath env snapshot).1 (toUnsigned env.lineNumber)
      span.endOfToken = none)
    (hscope : env.scopeAt doc (toUnsigned env.lineNumber)
      (toUnsigned (env.positionInBlock + 1)) = some scope)
    (hchosen : chooseCandidate env env.lineNumber env.positionInBlock span.beginOfToken
      (env.reference doc (fastPath env snapshot).2
        (expressionToResolve env span.tcPosition) scope) = some result)
    (hsymbol : result.declaration = some symbol)
    (hforward : symbol.isForwardClassDeclaration = true)
    (hresolve : env.resolveTarget = true) :
    (∀ classDeclaration,
        env.findMatchingClassDeclaration symbol (fastPath env snapshot).2
          = some classDeclaration →
        (findLink env snapshot).1 =
          { env.linkToSymbol classDeclaration with
            linkTextStart := span.beginOfToken
            linkTextEnd := span.endOfToken })
      ∧ (env.findMatchingClassDeclaration symbol (fastPath env snapshot).2 = none →
        (findLink env snapshot).1 =
          { env.linkToSymbol symbol with
            linkTextStart := span.beginOfToken
            linkTextEnd := span.endOfToken }) := by
  rw [findLink_of_candidates env snapshot doc span scope hfast hdoc htoken hstep hscope]
  unfold candidatesLink
  simp only [hchosen, hsymbol]
  constructor
  · intro classDeclaration hclass
    simp [linkTargetSymbol, hresolve, hforward, hclass]
  · intro hclass
    simp [linkTargetSymbol, hresolve, hforward, hclass]

theorem findLink_forward_class_declaration_witness :
    (findLink forwardClassEnv [exampleDocument]).1 =
      { linkTextStart := 6, linkTextEnd := 9, targetFileName := "foo.h", targetLine := 10,
        targetColumn := 6 } :=
  (findLink_forward_class_declaration forwardClassEnv [exampleDocument] exampleDocument
    ⟨6, 9, 9⟩ ⟨0⟩ ⟨.ofKind .forwardClassDeclaration, some fooForward⟩ fooForward
    (by decide) (by decide) (by decide) (by decide) (by decide) (by decide) (by decide)
    (by decide) (by decide)).1 fooClass (by decide)

/-- The guard `tk.isNot(T_IDENTIFIER) && tk.kind() < T_FIRST_QT_KEYWORD &&
tk.kind() > T_LAST_KEYWORD` never holds when the first Qt keyword is not
above the last keyword: a token that is no string literal always passes the
block `if (!recognizedQtMethod)`. -/
theorem classifyToken_never_rejects (env : Env) (doc : Document) (link : Link)
    (hkinds : env.kinds.T_FIRST_QT_KEYWORD ≤ env.kinds.T_LAST_KEYWORD + 1)
    (hstring : (tokenUnderCursor env).kind ≠ env.kinds.T_STRING_LITERAL)
    (hangle : (tokenUnderCursor env).kind ≠ env.kinds.T_ANGLE_STRING_LITERAL) :
    classifyToken env doc link =
      .proceed ⟨env.cursorBlockPosition + (tokenUnderCursor env).begin,
        env.cursorBlockPosition + (tokenUnderCursor env).end_,
        env.cursorBlockPosition + (tokenUnderCursor env).end_⟩ := by
  unfold classifyToken
  have hguard : ¬ ((tokenUnderCursor env).kind ≠ env.kinds.T_IDENTIFIER
      ∧ (tokenUnderCursor env).kind < env.kinds.T_FIRST_QT_KEYWORD
      ∧ (tokenUnderCursor env).kind > env.kinds.T_LAST_KEYWORD) := by
    intro h
    omega
  simp only [hstring, hangle, or_self, if_false, hguard]

/-- C7 fails on the code. In the buffer `foo() ;` with the cursor right after
`)`, the token under the cursor is the closing parenthesis: no identifier, no
keyword (its kind 65 is below the keywords), no string literal, and no Qt
method is recognized. `findLink` does not return at the test of the token's
kind: that step proceeds, and the scope lookup yields a link to `foo.h:3`
spanning the parenthesis. -/
theorem findLink_on_closing_parenthesis :
    tokenUnderCursor exampleEnv = ⟨65, 4, 5⟩
      ∧ (tokenUnderCursor exampleEnv).kind ≠ exampleEnv.kinds.T_IDENTIFIER
      ∧ (tokenUnderCursor exampleEnv).kind < exampleEnv.kinds.T_FIRST_QT_KEYWORD
      ∧ (tokenUnderCursor exampleEnv).kind ≠ exampleEnv.kinds.T_STRING_LITERAL
      ∧ (tokenUnderCursor exampleEnv).kind ≠ exampleEnv.kinds.T_ANGLE_STRING_LITERAL
      ∧ (recognizeQtMethod exampleEnv exampleEnv.positionInBlock
          exampleEnv.identifierEnd).1 = false
      ∧ classifyToken exampleEnv exampleDocument {} = .proceed ⟨4, 5, 5⟩
      ∧ (findLink exampleEnv [exampleDocument]).1 =
          { linkTextStart := 4, linkTextEnd := 5, targetFileName := "foo.h", targetLine := 3,
            targetColumn := 5 } := by
  decide

/-- C8. Calling `findLink` a second time, on the engine state the first call
left behind (the snapshot with the semantic document possibly inserted),
returns the same link and leaves the same snapshot. -/
theorem findLink_idempotent (env : Env) (snapshot : Snapshot) :
    findLink env (findLink env snapshot).2 = findLink env snapshot := by
  rw [findLink_snd]
  unfold findLink
  simp only [fastPath_fastPath]

/-! ## Well-formed links -/

theorem Link.wellFormed_default : Link.wellFormed {} := Or.inr ⟨rfl, rfl⟩

theorem Link.wellFormed_of_target (l : Link) (a b : Int) (h : l.hasValidTarget = true) :
    Link.wellFormed { l with linkTextStart := a, linkTextEnd := b } := Or.inl h

theorem attemptFuncDeclDef_wellFormed (env : Env) (doc : Document) (s : Snapshot)
    (hlink : ∀ symbol, (env.linkToSymbol symbol).hasValidTarget = true) :
    (attemptFuncDeclDef env doc s).1.wellFormed := by
  unfold attemptFuncDeclDef
  simp only []
  repeat' split
  all_goals first
    | exact Link.wellFormed_default
    | exact Link.wellFormed_of_target _ _ _ (hlink _)

theorem fastPath_wellFormed (env : Env) (s : Snapshot)
    (hlink : ∀ symbol, (env.linkToSymbol symbol).hasValidTarget = true) :
    (fastPath env s).1.wellFormed := by
  unfold fastPath
  split
  · split
    · simp only []
      split
      · exact attemptFuncDeclDef_wellFormed env _ s hlink
      · exact Link.wellFormed_default
    · exact Link.wellFormed_default
  · exact Link.wellFormed_default

theorem macroFallback_wellFormed (env : Env) : (macroFallback env).wellFormed := by
  unfold macroFallback
  simp only []
  split
  · rename_i h
    exact Link.wellFormed_of_target _ _ _ h
  · exact Link.wellFormed_default

theorem candidatesLink_wellFormed (env : Env) (doc : Document) (s : Snapshot)
    (lineNumber positionInBlock : Int) (span : TokenSpan) (resolved : List LookupItem)
    (hlink : ∀ symbol, (env.linkToSymbol symbol).hasValidTarget = true) :
    (candidatesLink env doc s lineNumber positionInBlock span resolved).wellFormed := by
  unfold candidatesLink
  repeat' split
  all_goals first
    | exact macroFallback_wellFormed env
    | exact Link.wellFormed_of_target _ _ _ (hlink _)

theorem classifyToken_wellFormed (env : Env) (doc : Document) (link l : Link)
    (hwf : link.wellFormed)
    (hincl : ∀ incl ∈ doc.resolvedIncludes, incl.resolvedFileName ≠ "")
    (h : classifyToken env doc link = .finished l) : l.wellFormed := by
  unfold classifyToken at h
  simp only [] at h
  split at h
  · split at h
    · rename_i incl hfind
      have hmem := List.mem_of_find?_eq_some hfind
      injection h with h
      subst h
      exact Or.inl (by simp [Link.hasValidTarget, hincl incl hmem])
    · split at h
      · injection h with h
        subst h
        exact hwf
      · exact absurd h (by simp)
  · split at h
    · injection h with h
      subst h
      exact hwf
    · exact absurd h (by simp)

theorem macroStep_wellFormed (env : Env) (doc : Document) (link l : Link) (line : Nat)
    (endOfToken : Int) (hwf : link.wellFormed)
    (huses : ∀ use ∈ doc.macroUses, use.usedMacro.fileName ≠ "")
    (h : macroStep env doc link line endOfToken = some l) : l.wellFormed := by
  unfold macroStep at h
  split at h
  · split at h
    · injection h with h
      subst h
      exact hwf
    · exact absurd h (by simp)
  · split at h
    · rename_i use hfind
      have hmem := List.mem_of_find?_eq_some hfind
      split at h
      · injection h with h
        subst h
        exact Or.inl (by simp [Link.hasValidTarget, huses use hmem])
      · exact absurd h (by simp)
    · exact absurd h (by simp)

theorem resolveLink_wellFormed (env : Env) (s : Snapshot) (link : Link)
    (hwf : link.wellFormed)
    (hlink : ∀ symbol, (env.linkToSymbol symbol).hasValidTarget = true)
    (hincl : ∀ doc, selectDocument env s = some doc →
      ∀ incl ∈ doc.resolvedIncludes, incl.resolvedFileName ≠ "")
    (huses : ∀ doc, selectDocument env s = some doc →
      ∀ use ∈ doc.macroUses, use.usedMacro.fileName ≠ "") :
    (resolveLink env s link).wellFormed := by
  unfold resolveLink
  cases hdoc : selectDocument env s with
  | none => exact hwf
  | some doc =>
    simp only []
    cases htoken : tokenStep env doc link with
    | finished l =>
      simp only []
      unfold tokenStep at htoken
      simp only [] at htoken
      split at htoken
      · exact absurd htoken (by simp)
      · exact classifyToken_wellFormed env doc link l hwf (hincl doc hdoc) htoken
    | proceed span =>
      simp only []
      cases hstep : macroStep env doc link (toUnsigned env.lineNumber) span.endOfToken with
      | some l =>
        exact macroStep_wellFormed env doc link l _ _ hwf (huses doc hdoc) hstep
      | none =>
        simp only []
        unfold lookupStep
        simp only []
        split
        · exact hwf
        · exact candidatesLink_wellFormed env doc s _ _ span _ hlink

/-- C9, as amended. If `linkToSymbol` yields a valid target for every symbol,
and the resolved includes and the macros of the macro uses of the selected
document have non-empty file names, then the link returned by `findLink`
and the link returned by `attemptFuncDeclDef` each have a valid target or
still carry the default span `-1`, `-1`. -/
theorem findLink_wellFormed (env : Env) (snapshot : Snapshot)
    (hlink : ∀ symbol, (env.linkToSymbol symbol).hasValidTarget = true)
    (hincl : ∀ doc, selectDocument env (fastPath env snapshot).2 = some doc →
      ∀ incl ∈ doc.resolvedIncludes, incl.resolvedFileName ≠ "")
    (huses : ∀ doc, selectDocument env (fastPath env snapshot).2 = some doc →
      ∀ use ∈ doc.macroUses, use.usedMacro.fileName ≠ "") :
    (findLink env snapshot).1.wellFormed
      ∧ ∀ doc, (attemptFuncDeclDef env doc snapshot).1.wellFormed := by
  refine ⟨?_, fun doc => attemptFuncDeclDef_wellFormed env doc snapshot hlink⟩
  unfold findLink
  simp only []
  split
  · exact fastPath_wellFormed env snapshot hlink
  · exact resolveLink_wellFormed env _ _ (fastPath_wellFormed env snapshot hlink) hlink
      hincl huses

theorem findLink_wellFormed_witness :
    (findLink singleFileEnv []).1.wellFormed
      ∧ ∀ doc, (attemptFuncDeclDef singleFileEnv doc []).1.wellFormed :=
  findLink_wellFormed singleFileEnv [] (fun _ => rfl)
    (fun doc h incl hmem => by
      have hd : doc = barDocument := by
        have h2 : selectDocument singleFileEnv (fastPath singleFileEnv []).2
            = some barDocument := by decide
        rw [h2] at h
        exact (Option.some.inj h).symm
      subst hd
      simp [barDocument] at hmem)
    (fun doc h use hmem => by
      have hd : doc = barDocument := by
        have h2 : selectDocument singleFileEnv (fastPath singleFileEnv []).2
            = some barDocument := by decide
        rw [h2] at h
        exact (Option.some.inj h).symm
      subst hd
      simp [barDocument] at hmem)

/-- C9 as stated fails: `linkToSymbol` maps a symbol without a file name to a
link without a target, and `findLink` returns that link with the span set to
the token's boundaries. -/
theorem findLink_span_without_target :
    (unnamedFileEnv.linkToSymbol unnamedFileSymbol).hasValidTarget = false
      ∧ (findLink unnamedFileEnv [exampleDocument]).1.hasValidTarget = false
      ∧ (findLink unnamedFileEnv [exampleDocument]).1.linkTextStart = 0
      ∧ (findLink unnamedFileEnv [exampleDocument]).1.linkTextEnd = 3
      ∧ ¬ (findLink unnamedFileEnv [exampleDocument]).1.wellFormed := by
  refine ⟨by decide, by decide, by decide, by decide, ?_⟩
  unfold Link.wellFormed
  decide

theorem skipLeading_all (isKind : FullySpecifiedType → Bool) (result : LookupItem)
    (l : List LookupItem) (h : ∀ c ∈ l, isKind c.type = true) :
    skipLeading isKind result l = (result, []) := by
  induction l with
  | nil => rfl
  | cons c rest ih =>
    have hc := h c (List.mem_cons_self c rest)
    simp only [skipLeading, hc, Bool.not_true, Bool.false_eq_true, if_false]
    exact ih (fun x hx => h x (List.mem_cons_of_mem c hx))

theorem skipLeading_first (isKind : FullySpecifiedType → Bool) (result r : LookupItem)
    (pre post : List LookupItem) (h : ∀ c ∈ pre, isKind c.type = true)
    (hr : isKind r.type = false) :
    skipLeading isKind result (pre ++ r :: post) = (r, post) := by
  induction pre with
  | nil => simp [skipLeading, hr]
  | cons c rest ih =>
    have hc := h c (List.mem_cons_self c rest)
    simp only [List.cons_append, skipLeading, hc, Bool.not_true, Bool.false_eq_true, if_false]
    exact ih (fun x hx => h x (List.mem_cons_of_mem c hx))

theorem skipLeading_mem (isKind : FullySpecifiedType → Bool) (result : LookupItem)
    (l : List LookupItem) :
    (skipLeading isKind result l).1 = result ∨ (skipLeading isKind result l).1 ∈ l := by
  induction l with
  | nil => exact Or.inl rfl
  | cons c rest ih =>
    unfold skipLeading
    split
    · exact Or.inr (List.mem_cons_self c rest)
    · rcases ih with h | h
      · exact Or.inl h
      · exact Or.inr (List.mem_cons_of_mem c h)

/-- The value of `skipForwardDeclarations` when the first candidate's
simplified type is of forward kind `k`: one loop runs, over the whole list. -/
theorem skipForwardDeclarations_of_forward (first : LookupItem) (rest : List LookupItem)
    (k : TypeKind) (hk : k.isForward = true) (hty : first.type.simplified = .ofKind k) :
    skipForwardDeclarations (first :: rest) =
      some (skipLeading (fun t => t == .ofKind k) first (first :: rest)).1 := by
  cases k <;> simp [TypeKind.isForward] at hk <;>
    simp [skipForwardDeclarations, hty,
      FullySpecifiedType.isForwardClassDeclarationType,
      FullySpecifiedType.isObjCForwardClassDeclarationType,
      FullySpecifiedType.isObjCForwardProtocolDeclarationType] <;> rfl

/-- C10. `skipForwardDeclarations` on a non-empty list `first :: rest`:
(1) if the first candidate's simplified type is of no forward kind, the
result is the first candidate; (2) if it is of forward kind `k`, the result
is the first candidate whose type is not of kind `k`, every candidate before
it being of kind `k`, and the first candidate if all are of kind `k`;
(3) the result is an element of the list. -/
theorem skipForwardDeclarations_leading_run (first : LookupItem) (rest : List LookupItem) :
    ((∀ k : TypeKind, k.isForward = true → first.type.simplified ≠ .ofKind k) →
        skipForwardDeclarations (first :: rest) = some first)
    ∧ (∀ k : TypeKind, k.isForward = true → first.type.simplified = .ofKind k →
        (∀ (pre post : List LookupItem) (r : LookupItem),
            first :: rest = pre ++ r :: post →
            (∀ c ∈ pre, c.type = .ofKind k) → r.type ≠ .ofKind k →
            skipForwardDeclarations (first :: rest) = some r)
        ∧ ((∀ c ∈ first :: rest, c.type = .ofKind k) →
            skipForwardDeclarations (first :: rest) = some first))
    ∧ (∃ r ∈ first :: rest, skipForwardDeclarations (first :: rest) = some r) := by
  refine ⟨?_, ?_, ?_⟩
  · intro h
    have h1 := h .forwardClassDeclaration rfl
    have h2 := h .objCForwardClassDeclaration rfl
    have h3 := h .objCForwardProtocolDeclaration rfl
    simp [skipForwardDeclarations, FullySpecifiedType.isForwardClassDeclarationType,
      FullySpecifiedType.isObjCForwardClassDeclarationType,
      FullySpecifiedType.isObjCForwardProtocolDeclarationType, h1, h2, h3]
  · intro k hk hty
    rw [skipForwardDeclarations_of_forward first rest k hk hty]
    refine ⟨?_, ?_⟩
    · intro pre post r hsplit hpre hr
      rw [hsplit, skipLeading_first _ first r pre post (fun c hc => by simp [hpre c hc])
        (by simpa using hr)]
    · intro hall
      rw [skipLeading_all _ first (first :: rest) (fun c hc => by simp [hall c hc])]
  · by_cases h : ∃ k : TypeKind, k.isForward = true ∧ first.type.simplified = .ofKind k
    · obtain ⟨k, hk, hty⟩ := h
      rw [skipForwardDeclarations_of_forward first rest k hk hty]
      rcases skipLeading_mem (fun t => t == .ofKind k) first (first :: rest) with h | h
      · exact ⟨first, List.mem_cons_self first rest, by rw [h]⟩
      · exact ⟨_, h, rfl⟩
    · refine ⟨first, List.mem_cons_self first rest, ?_⟩
      have h1 : first.type.simplified ≠ .ofKind .forwardClassDeclaration :=
        fun e => h ⟨.forwardClassDeclaration, rfl, e⟩
      have h2 : first.type.simplified ≠ .ofKind .objCForwardClassDeclaration :=
        fun e => h ⟨.objCForwardClassDeclaration, rfl, e⟩
      have h3 : first.type.simplified ≠ .ofKind .objCForwardProtocolDeclaration :=
        fun e => h ⟨.objCForwardProtocolDeclaration, rfl, e⟩
      simp [skipForwardDeclarations, FullySpecifiedType.isForwardClassDeclarationType,
        FullySpecifiedType.isObjCForwardClassDeclarationType,
        FullySpecifiedType.isObjCForwardProtocolDeclarationType, h1, h2, h3]

theorem skipForwardDeclarations_leading_run_witness :
    skipForwardDeclarations
        [⟨.ofKind .forwardClassDeclaration, some fooForward⟩,
          ⟨.ofKind .forwardClassDeclaration, none⟩,
          ⟨.ofKind .other, some fooClass⟩,
          ⟨.ofKind .forwardClassDeclaration, some fooForward⟩]
      = some ⟨.ofKind .other, some fooClass⟩ :=
  ((skipForwardDeclarations_leading_run ⟨.ofKind .forwardClassDeclaration, some fooForward⟩
      [⟨.ofKind .forwardClassDeclaration, none⟩, ⟨.ofKind .other, some fooClass⟩,
        ⟨.ofKind .forwardClassDeclaration, some fooForward⟩]).2.1
    .forwardClassDeclaration rfl rfl).1
    [⟨.ofKind .forwardClassDeclaration, some fooForward⟩,
      ⟨.ofKind .forwardClassDeclaration, none⟩]
    [⟨.ofKind .forwardClassDeclaration, some fooForward⟩]
    ⟨.ofKind .other, some fooClass⟩ rfl (by decide) (by decide)

/-! ## Candidate override scan -/

theorem overridesResult_iff (env : Env) (lineNumber positionInBlock beginOfToken : Int)
    (r : LookupItem) :
    overridesResult env lineNumber positionInBlock beginOfToken r = true
      ↔ Overrides env lineNumber positionInBlock beginOfToken r := by
  unfold overridesResult Overrides OnCursorDeclaration UsingDeclarationBefore
  cases hd : r.declaration with
  | none => simp
  | some d =>
    simp only [Option.some.injEq, exists_eq_left', Symbol.isDeclaration, Symbol.isFunction,
      Symbol.isUsingDeclaration]
    cases hk : d.kind <;> simp [and_assoc]

/-- C11. The candidate `chooseCandidate` picks from a non-empty list
`first :: rest` is the first candidate in list order that overrides (case (a)
or case (b)); if no candidate overrides it is the result of
`skipForwardDeclarations`; a candidate without a declaration symbol never
overrides. -/
theorem chooseCandidate_first_override (env : Env)
    (lineNumber positionInBlock beginOfToken : Int) (first : LookupItem)
    (rest : List LookupItem) :
    (∀ (pre post : List LookupItem) (r : LookupItem), first :: rest = pre ++ r :: post →
        (∀ c ∈ pre, ¬ Overrides env lineNumber positionInBlock beginOfToken c) →
        Overrides env lineNumber positionInBlock beginOfToken r →
        chooseCandidate env lineNumber positionInBlock beginOfToken (first :: rest) = some r)
    ∧ ((∀ c ∈ first :: rest, ¬ Overrides env lineNumber positionInBlock beginOfToken c) →
        chooseCandidate env lineNumber positionInBlock beginOfToken (first :: rest)
          = skipForwardDeclarations (first :: rest))
    ∧ (∀ c : LookupItem, c.declaration = none →
        ¬ Overrides env lineNumber positionInBlock beginOfToken c) := by
  refine ⟨?_, ?_, ?_⟩
  · intro pre post r hsplit hpre hr
    have hnone : pre.find? (overridesResult env lineNumber positionInBlock beginOfToken)
        = none := by
      rw [List.find?_eq_none]
      intro c hc h
      exact hpre c hc ((overridesResult_iff env _ _ _ c).mp h)
    have hr2 := (overridesResult_iff env lineNumber positionInBlock beginOfToken r).mpr hr
    unfold chooseCandidate
    rw [hsplit, List.find?_append, hnone]
    simp [List.find?, hr2]
  · intro hall
    have hnone : (first :: rest).find?
        (overridesResult env lineNumber positionInBlock beginOfToken) = none := by
      rw [List.find?_eq_none]
      intro c hc h
      exact hall c hc ((overridesResult_iff env _ _ _ c).mp h)
    unfold chooseCandidate
    rw [hnone]
  · intro c hc h
    obtain ⟨d, hd, _⟩ := h
    rw [hc] at hd
    exact absurd hd (by simp)

/-! ## `findDefinition` -/

/-- C12. `findDefinition` yields nothing for a symbol that is a function
definition, nothing for a symbol whose type is no function type, and in every
other case exactly the symbol finder's `findMatchingDefinition`; in the first
two cases the result is the same for every symbol finder. -/
theorem findDefinition_cases (env : Env) (symbol : Symbol) (snapshot : Snapshot) :
    (symbol.isFunction = true → findDefinition env symbol snapshot = none)
    ∧ (symbol.type.isFunctionType = false → findDefinition env symbol snapshot = none)
    ∧ (symbol.isFunction = false → symbol.type.isFunctionType = true →
        findDefinition env symbol snapshot
          = env.findMatchingDefinition (some symbol) snapshot)
    ∧ (symbol.isFunction = true ∨ symbol.type.isFunctionType = false →
        ∀ finder : Option Symbol → Snapshot → Option Symbol,
          findDefinition { env with findMatchingDefinition := finder } symbol snapshot
            = none) := by
  refine ⟨?_, ?_, ?_, ?_⟩
  · intro h
    simp [findDefinition, h]
  · intro h
    simp [findDefinition, h]
  · intro h1 h2
    simp [findDefinition, h1, h2]
  · intro h finder
    rcases h with h | h <;> simp [findDefinition, h]

/-! ## Fast-path disqualification -/

theorem findDeclarator_none (path : List AST) :
    ∀ n, (∀ i a, 1 ≤ i → i ≤ n → path[i]? = some a → ∀ q, a.kind ≠ .declarator q) →
      findDeclarator path n = none := by
  intro n
  induction n with
  | zero => intro _; rfl
  | succ m ih =>
    intro h
    have hrec := ih (fun i a h1 h2 => h i a h1 (by omega))
    cases h1 : path[m + 1]? with
    | none => simpa [findDeclarator, h1] using hrec
    | some a =>
      cases h2 : path[m]? with
      | none => simpa [findDeclarator, h1, h2] using hrec
      | some b =>
        have hna := h (m + 1) a (by omega) (Nat.le_refl _) h1
        cases hk : a.kind with
        | declarator q => exact absurd hk (hna q)
        | _ => simpa [findDeclarator, h1, h2, hk] using hrec

theorem findDeclarator_some (path : List AST) (postfixList : List (Option PostfixDeclarator))
    (parent : AST) :
    ∀ n, findDeclarator path n = some (postfixList, parent) →
      ∃ i a, 1 ≤ i ∧ i ≤ n ∧ path[i]? = some a ∧ a.kind = .declarator postfixList
        ∧ path[i - 1]? = some parent
        ∧ ∀ j b, i < j → j ≤ n → path[j]? = some b → ∀ q, b.kind ≠ .declarator q := by
  intro n
  induction n with
  | zero => intro h; simp [findDeclarator] at h
  | succ m ih =>
    intro h
    have extend : ∀ (hskip : ∀ b, path[m + 1]? = some b → ∀ q, b.kind ≠ .declarator q)
        (hrec : findDeclarator path m = some (postfixList, parent)),
        ∃ i a, 1 ≤ i ∧ i ≤ m + 1 ∧ path[i]? = some a ∧ a.kind = .declarator postfixList
          ∧ path[i - 1]? = some parent
          ∧ ∀ j b, i < j → j ≤ m + 1 → path[j]? = some b → ∀ q, b.kind ≠ .declarator q := by
      intro hskip hrec
      obtain ⟨i, a, hi1, hi2, ha, hk, hp, hall⟩ := ih hrec
      refine ⟨i, a, hi1, by omega, ha, hk, hp, ?_⟩
      intro j b hj hj2 hb
      by_cases hjm : j = m + 1
      · subst hjm
        exact hskip b hb
      · exact hall j b hj (by omega) hb
    cases h1 : path[m + 1]? with
    | none =>
      have hrec : findDeclarator path m = some (postfixList, parent) := by
        simpa [findDeclarator, h1] using h
      exact extend (fun b hb => by rw [h1] at hb; exact absurd hb (by simp)) hrec
    | some a =>
      cases h2 : path[m]? with
      | none =>
        have hlt : m + 1 < path.length := by
          rcases Nat.lt_or_ge (m + 1) path.length with hlt | hge
          · exact hlt
          · rw [List.getElem?_eq_none hge] at h1
            exact absurd h1 (by simp)
        rw [List.getElem?_eq_getElem (by omega)] at h2
        exact absurd h2 (by simp)
      | some b =>
        cases hk : a.kind with
        | declarator q =>
          have hres : (q, b) = (postfixList, parent) := by
            simpa [findDeclarator, h1, h2, hk] using h
          obtain ⟨hq, hb⟩ := Prod.mk.inj hres
          subst hq
          subst hb
          refine ⟨m + 1, a, by omega, Nat.le_refl _, h1, hk, by simpa using h2, ?_⟩
          intro j c hj hj2
          omega
        | _ =>
          have hrec : findDeclarator path m = some (postfixList, parent) := by
            simpa [findDeclarator, h1, h2, hk] using h
          exact extend (fun c hc => by
            rw [h1] at hc
            have hca : a = c := Option.some.inj hc
            subst hca
            intro q hq
            rw [hq] at hk
            exact absurd hk (by simp)) hrec

/-- C15. `attemptFuncDeclDef` returns the empty link, whatever the symbol
finder would answer, when the AST path has fewer than 5 nodes, or its last
node is no name, or the node before the name is a qualified name whose
unqualified part is another node, or some node of the path is a parameter
declaration, or no node of `path[1..n-2]` is a declarator, or the innermost
declarator of `path[1..n-2]` has no function declarator at the head of its
postfix list. And when the loop finds a declarator, it is the innermost
declarator of `path[1..n-2]` and the parent used is the node right before it. -/
theorem attemptFuncDeclDef_disqualified (env : Env) (doc : Document) (snapshot : Snapshot) :
    ((env.astPath doc).length < 5
      ∨ (env.astPath doc).getLast?.bind AST.asName = none
      ∨ (∃ name parent unqualified,
          (env.astPath doc).getLast?.bind AST.asName = some name
          ∧ (env.astPath doc)[(env.astPath doc).length - 2]? = some parent
          ∧ parent.kind = .qualifiedName unqualified ∧ unqualified ≠ some name.id)
      ∨ (∃ node ∈ env.astPath doc, node.isParameterDeclaration = true)
      ∨ (∀ i a, 1 ≤ i → i ≤ (env.astPath doc).length - 2 →
          (env.astPath doc)[i]? = some a → ∀ q, a.kind ≠ .declarator q)
      ∨ (∃ i a q, 1 ≤ i ∧ i ≤ (env.astPath doc).length - 2
          ∧ (env.astPath doc)[i]? = some a ∧ a.kind = .declarator q
          ∧ (∀ j b, i < j → j ≤ (env.astPath doc).length - 2 →
              (env.astPath doc)[j]? = some b → ∀ q2, b.kind ≠ .declarator q2)
          ∧ asFunctionDeclarator q = none) →
      ∀ (declarations : Document → Snapshot → Option Symbol → List Symbol)
        (definitions : Option Symbol → Snapshot → Option Symbol),
        attemptFuncDeclDef
            { env with findMatchingDeclaration := declarations
                       findMatchingDefinition := definitions } doc snapshot
          = ({}, snapshot.insert doc))
    ∧ (∀ postfixList parent,
        findDeclarator (env.astPath doc) ((env.astPath doc).length - 2)
          = some (postfixList, parent) →
        ∃ i a, 1 ≤ i ∧ i ≤ (env.astPath doc).length - 2
          ∧ (env.astPath doc)[i]? = some a ∧ a.kind = .declarator postfixList
          ∧ (env.astPath doc)[i - 1]? = some parent
          ∧ ∀ j b, i < j → j ≤ (env.astPath doc).length - 2 →
              (env.astPath doc)[j]? = some b → ∀ q, b.kind ≠ .declarator q) := by
  refine ⟨?_, fun postfixList parent h => findDeclarator_some _ postfixList parent _ h⟩
  intro h declarations definitions
  unfold attemptFuncDeclDef
  simp only []
  by_cases hlen : (env.astPath doc).length < 5
  · simp [hlen]
  simp only [hlen, if_false]
  cases hname : (env.astPath doc).getLast?.bind AST.asName with
  | none => rfl
  | some name =>
    simp only []
    by_cases hq : onQualifier (env.astPath doc) name = true
    · simp [hq]
    simp only [hq, if_false]
    by_cases hp : (env.astPath doc).any AST.isParameterDeclaration = true
    · simp [hp]
    simp only [hp, if_false]
    cases hdecl : findDeclarator (env.astPath doc) ((env.astPath doc).length - 2) with
    | none => rfl
    | some found =>
      obtain ⟨postfixList, declParent⟩ := found
      simp only []
      cases hfun : asFunctionDeclarator postfixList with
      | none => rfl
      | some funcDeclSymbol =>
        exfalso
        rcases h with h | h | h | h | h | h
        · exact hlen h
        · rw [hname] at h
          exact absurd h (by simp)
        · obtain ⟨name2, parent, unqualified, hn, hpar, hk, hne⟩ := h
          rw [hname] at hn
          have hn2 : name = name2 := Option.some.inj hn
          subst hn2
          apply hq
          simp [onQualifier, hpar, hk, hne]
        · obtain ⟨node, hmem, hnode⟩ := h
          apply hp
          rw [List.any_eq_true]
          exact ⟨node, hmem, hnode⟩
        · rw [findDeclarator_none _ _ h] at hdecl
          exact absurd hdecl (by simp)
        · obtain ⟨i, a, q, hi1, hi2, ha, hk, hnear, hnone⟩ := h
          have hparent : ∃ p, (env.astPath doc)[i - 1]? = some p := by
            have hlt : i < (env.astPath doc).length := by
              rcases Nat.lt_or_ge i (env.astPath doc).length with hlt | hge
              · exact hlt
              · rw [List.getElem?_eq_none hge] at ha
                exact absurd ha (by simp)
            exact ⟨_, List.getElem?_eq_getElem (by omega)⟩
          obtain ⟨p, hp2⟩ := hparent
          have hfound := findDeclarator_innermost (env.astPath doc) i a p q (by omega) ha hk
            hp2 _ hi2 hnear
          rw [hfound] at hdecl
          obtain ⟨hq2, _⟩ := Prod.mk.inj (Option.some.inj hdecl)
          subst hq2
          rw [hnone] at hfun
          exact absurd hfun (by simp)

/-! ## Signal and slot recognition -/

theorem firstSpanning_eq (p : Nat) (tk : Token) :
    ∀ (tokens : List Token) (n start : Nat),
      (∀ k t, k < n → tokens[k]? = some t → ¬ (t.begin ≤ p ∧ p ≤ t.end_)) →
      tokens[n]? = some tk → tk.begin ≤ p ∧ p ≤ tk.end_ →
      firstSpanning p tokens start = some (start + n) := by
  intro tokens
  induction tokens with
  | nil => intro n start _ h; simp at h
  | cons t rest ih =>
    intro n start hbefore hn hspan
    cases n with
    | zero =>
      simp only [List.getElem?_cons_zero, Option.some.injEq] at hn
      subst hn
      simp [firstSpanning, hspan]
    | succ m =>
      have h0 := hbefore 0 t (by omega) (by simp)
      have hrec := ih m (start + 1)
        (fun k u hk hu => hbefore (k + 1) u (by omega) (by simpa using hu))
        (by simpa using hn) hspan
      simp only [firstSpanning, h0, if_false]
      rw [hrec]
      congr 1
      omega

theorem TokenKinds.lparen_ne_rparen (K : TokenKinds) : K.T_LPAREN ≠ K.T_RPAREN := by
  have h := K.distinct
  simp only [List.nodup_cons, List.mem_cons, not_or] at h
  exact h.2.2.2.1.1

/-- The loop "skip matched parenthesis" entered inside an open parenthesis
(`depth > 0`) breaks at the first token at which the depth returns to 0. -/
theorem skipMatchedParenthesis_eq (K : TokenKinds) :
    ∀ (tokens : List Token) (j : Nat) (depth : Int) (n : Nat), 0 < depth →
      n < tokens.length →
      (∀ m, m ≤ n → depth + parenDepth K (tokens.take m) ≠ 0) →
      depth + parenDepth K (tokens.take (n + 1)) = 0 →
      skipMatchedParenthesis K tokens j depth = j + n := by
  intro tokens
  induction tokens with
  | nil => intro j depth n _ hn; simp at hn
  | cons t rest ih =>
    intro j depth n hpos hn hopen hclose
    cases n with
    | zero =>
      simp only [Nat.zero_add, List.take_succ_cons, List.take_zero, parenDepth] at hclose
      by_cases hl : t.kind = K.T_LPAREN
      · rw [if_pos hl] at hclose
        omega
      · by_cases hr : t.kind = K.T_RPAREN
        · rw [if_neg hl, if_pos hr] at hclose
          have hd : depth - 1 = 0 := by omega
          rw [skipMatchedParenthesis, if_neg hl, if_pos hr, if_pos hd]
          rfl
        · rw [if_neg hl, if_neg hr] at hclose
          omega
    | succ m =>
      have h1 := hopen 1 (by omega)
      simp only [List.take_succ_cons, List.take_zero, parenDepth] at h1
      have shift : ∀ (delta : Int),
          (if t.kind = K.T_LPAREN then 1 else if t.kind = K.T_RPAREN then -1 else 0) = delta →
          -1 ≤ delta →
          skipMatchedParenthesis K rest (j + 1) (depth + delta) = j + (m + 1) := by
        intro delta hdelta hlow
        rw [hdelta] at h1
        have hrec := ih (j + 1) (depth + delta) m (by omega) (by simpa using hn)
          (fun k hk => by
            have := hopen (k + 1) (by omega)
            simp only [List.take_succ_cons, parenDepth] at this
            rw [hdelta] at this
            omega)
          (by
            have := hclose
            simp only [List.take_succ_cons, parenDepth] at this
            rw [hdelta] at this
            omega)
        rw [hrec]
        omega
      by_cases hl : t.kind = K.T_LPAREN
      · rw [skipMatchedParenthesis, if_pos hl]
        exact shift 1 (by rw [if_pos hl]) (by omega)
      · by_cases hr : t.kind = K.T_RPAREN
        · have hd : ¬ depth - 1 = 0 := by
            rw [if_neg hl, if_pos hr] at h1
            omega
          rw [skipMatchedParenthesis, if_neg hl, if_pos hr, if_neg hd]
          have := shift (-1) (by rw [if_neg hl, if_pos hr]) (by omega)
          simpa [Int.sub_eq_add_neg] using this
        · rw [skipMatchedParenthesis, if_neg hl, if_neg hr]
          have := shift 0 (by rw [if_neg hl, if_neg hr]) (by omega)
          simpa using this

theorem skipMatchedParenthesis_from_lparen (K : TokenKinds) (tokens : List Token)
    (a j : Nat) (open_ : Token) (ha : tokens[a]? = some open_)
    (hopen : open_.kind = K.T_LPAREN) (hj : j < tokens.length) (haj : a ≤ j)
    (hbalanced : BalancedBetween K tokens a j)
    (hleast : ∀ k, a ≤ k → k < j → ¬ BalancedBetween K tokens a k) :
    skipMatchedParenthesis K (tokens.drop a) a 0 = j := by
  have halt : a < tokens.length := by omega
  have hget : tokens[a] = open_ := by
    rw [List.getElem?_eq_getElem halt] at ha
    exact Option.some.inj ha
  have hdrop : tokens.drop a = open_ :: tokens.drop (a + 1) := by
    rw [List.drop_eq_getElem_cons halt, hget]
  have hdepth : ∀ k, a ≤ k →
      parenDepth K ((tokens.drop a).take (k + 1 - a))
        = 1 + parenDepth K ((tokens.drop (a + 1)).take (k - a)) := by
    intro k hk
    have hk2 : k + 1 - a = (k - a) + 1 := by omega
    rw [hdrop, hk2, List.take_succ_cons, parenDepth, if_pos hopen]
  have hlt : a < j := by
    rcases Nat.lt_or_ge a j with h | h
    · exact h
    · have hja : j = a := by omega
      subst hja
      unfold BalancedBetween at hbalanced
      rw [hdepth j (Nat.le_refl _)] at hbalanced
      simp [parenDepth] at hbalanced
  rw [hdrop, skipMatchedParenthesis, if_pos hopen]
  have hmain := skipMatchedParenthesis_eq K (tokens.drop (a + 1)) (a + 1) (0 + 1) (j - a - 1)
    (by omega) (by simp; omega)
    (fun m hm => by
      have hk := hleast (a + m) (by omega) (by omega)
      unfold BalancedBetween at hk
      rw [hdepth (a + m) (by omega)] at hk
      have hm2 : a + m - a = m := by omega
      rw [hm2] at hk
      simpa using hk)
    (by
      unfold BalancedBetween at hbalanced
      rw [hdepth j haj] at hbalanced
      have hm2 : j - a = j - a - 1 + 1 := by omega
      rw [hm2] at hbalanced
      simpa using hbalanced)
  rw [hmain]
  omega

/-- What the scan of the line's tokens does recognize. Token `i` of the line
is an identifier with `begin <= c <= end` for the cursor column `c`, the
scan reaches token `i` (no earlier token of the line has
`begin <= c <= end`), tokens `i-2`, `i-1`, `i+1` are `SIGNAL` or `SLOT`, `(`
and `(`, and `j` is the least index from `i-1` on at which the parentheses
of `tokens[i-1..j]` are balanced: the Qt method is recognized, the recorded
span is the identifier token and the working cursor moves to the end of
token `j`. -/
theorem recognizeQtMethod_recognized (env : Env) (positionInBlock tcPosition : Int)
    (i j : Nat) (keyword open_ identifier next closing : Token)
    (hi : 2 ≤ i)
    (hkeyword : env.tokens[i - 2]? = some keyword)
    (hsignal : keyword.kind = env.kinds.T_SIGNAL ∨ keyword.kind = env.kinds.T_SLOT)
    (hopen : env.tokens[i - 1]? = some open_) (hlparen : open_.kind = env.kinds.T_LPAREN)
    (hidentifier : env.tokens[i]? = some identifier)
    (hkind : identifier.kind = env.kinds.T_IDENTIFIER)
    (hspan : identifier.begin ≤ toUnsigned positionInBlock
      ∧ toUnsigned positionInBlock ≤ identifier.end_)
    (hfirst : ∀ k t, k < i → env.tokens[k]? = some t →
      ¬ (t.begin ≤ toUnsigned positionInBlock ∧ toUnsigned positionInBlock ≤ t.end_))
    (hnext : env.tokens[i + 1]? = some next) (hnextKind : next.kind = env.kinds.T_LPAREN)
    (hclosing : env.tokens[j]? = some closing) (hij : i - 1 ≤ j)
    (hbalanced : BalancedBetween env.kinds env.tokens (i - 1) j)
    (hleast : ∀ k, i - 1 ≤ k → k < j → ¬ BalancedBetween env.kinds env.tokens (i - 1) k) :
    recognizeQtMethod env positionInBlock tcPosition =
      (true, ⟨env.cursorBlockPosition + identifier.begin,
        env.cursorBlockPosition + identifier.end_,
        env.cursorBlockPosition + closing.end_⟩) := by
  have hjlt : j < env.tokens.length := by
    rcases Nat.lt_or_ge j env.tokens.length with h | h
    · exact h
    · rw [List.getElem?_eq_none h] at hclosing
      exact absurd hclosing (by simp)
  have hnextlt : i + 1 < env.tokens.length := by
    rcases Nat.lt_or_ge (i + 1) env.tokens.length with h | h
    · exact h
    · rw [List.getElem?_eq_none h] at hnext
      exact absurd hnext (by simp)
  have hscan : firstSpanning (toUnsigned positionInBlock) env.tokens 0 = some i := by
    have h := firstSpanning_eq (toUnsigned positionInBlock) identifier env.tokens i 0 hfirst
      hidentifier hspan
    simpa using h
  have hskip := skipMatchedParenthesis_from_lparen env.kinds env.tokens (i - 1) j open_ hopen
    hlparen hjlt hij hbalanced hleast
  unfold recognizeQtMethod
  simp only [hscan, List.getD_eq_getElem?_getD, hkeyword, hopen, hidentifier, hnext, hclosing,
    Option.getD_some, hskip]
  simp [hi, hkind, hlparen, hsignal, hnextlt, hnextKind, hjlt]

/-! ## Macro fallback search -/

theorem Snapshot.document_mem (s : Snapshot) (fileName : String) (d : Document)
    (h : s.document fileName = some d) : d ∈ s :=
  List.mem_of_find?_eq_some h

theorem unprocessedCount_le_length (snapshot : Snapshot) (processed : List String) :
    unprocessedCount snapshot processed ≤ snapshot.length :=
  List.countP_le_length _

theorem unprocessedCount_mono (snapshot : Snapshot) (p q : List String)
    (h : ∀ x ∈ p, x ∈ q) : unprocessedCount snapshot q ≤ unprocessedCount snapshot p := by
  unfold unprocessedCount
  apply List.countP_mono_left
  intro d _ hd
  simp only [decide_eq_true_eq] at hd ⊢
  exact fun hp => hd (h _ hp)

theorem unprocessedCount_cons_lt (snapshot : Snapshot) (p : List String) (d : Document)
    (hmem : d ∈ snapshot) (hnew : d.fileName ∉ p) :
    unprocessedCount snapshot (d.fileName :: p) < unprocessedCount snapshot p := by
  unfold unprocessedCount
  induction snapshot with
  | nil => simp at hmem
  | cons e rest ih =>
    have hmono : List.countP (fun x => decide (x.fileName ∉ d.fileName :: p)) rest
        ≤ List.countP (fun x => decide (x.fileName ∉ p)) rest := by
      apply List.countP_mono_left
      intro x _ hx
      simp only [List.mem_cons, not_or, decide_eq_true_eq] at hx ⊢
      exact hx.2
    rcases List.mem_cons.mp hmem with h | h
    · have he2 : (decide (e.fileName ∉ d.fileName :: p)) = false := by simp [h]
      have he3 : (decide (e.fileName ∉ p)) = true := by
        rw [← h]
        simp [hnew]
      simp only [List.countP_cons]
      rw [he2, he3]
      simp only [Bool.false_eq_true, if_false, if_true, Nat.add_zero]
      omega
    · have := ih h
      simp only [List.countP_cons]
      by_cases he : e.fileName ∈ d.fileName :: p
      · have he2 : (decide (e.fileName ∉ d.fileName :: p)) = false := by simp [he]
        rw [he2]
        simp only [Bool.false_eq_true, if_false, Nat.add_zero]
        omega
      · have he2 : (decide (e.fileName ∉ d.fileName :: p)) = true := by simp [he]
        have he3 : (decide (e.fileName ∉ p)) = true := by
          simp only [List.mem_cons, not_or] at he
          simp [he.2]
        rw [he2, he3]
        simp only [if_true]
        omega

theorem unprocessedCount_pos (snapshot : Snapshot) (p : List String) (d : Document)
    (hmem : d ∈ snapshot) (hnew : d.fileName ∉ p) : 0 < unprocessedCount snapshot p := by
  have := unprocessedCount_cons_lt snapshot p d hmem hnew
  omega

/-- The loop hands the set `processed` on, growing, if each step does. -/
theorem includeLoop_subset (step : Option Document → List String → Link × List String)
    (snapshot : Snapshot)
    (hstep : ∀ doc p, ∀ x ∈ p, x ∈ (step doc p).2) :
    ∀ (includes : List Include) (p : List String),
      ∀ x ∈ p, x ∈ (includeLoop step snapshot includes p).2 := by
  intro includes
  induction includes with
  | nil => intro p x hx; exact hx
  | cons i rest ih =>
    intro p x hx
    unfold includeLoop
    simp only []
    split
    · exact hstep _ p x hx
    · exact ih _ x (hstep _ p x hx)

theorem findMacroLink_helper_subset (name : String) (snapshot : Snapshot) :
    ∀ (fuel : Nat) (doc : Option Document) (p : List String),
      ∀ x ∈ p, x ∈ (findMacroLink_helper name snapshot fuel doc p).2 := by
  intro fuel
  induction fuel with
  | zero => intro doc p x hx; simpa [findMacroLink_helper] using hx
  | succ n ih =>
    intro doc p x hx
    cases doc with
    | none => simpa [findMacroLink_helper] using hx
    | some d =>
      unfold findMacroLink_helper
      split
      · simp only []
        split
        · exact List.mem_cons_of_mem _ hx
        · exact includeLoop_subset _ snapshot ih _ _ x (List.mem_cons_of_mem _ hx)
      · exact hx

/-- Two step functions that agree below a bound of the measure give the same
loop over the includes. -/
theorem includeLoop_congr (snapshot : Snapshot) (bound : Nat)
    (f g : Option Document → List String → Link × List String)
    (hfg : ∀ doc p, (∀ d, doc = some d → d ∈ snapshot) →
      unprocessedCount snapshot p ≤ bound → f doc p = g doc p)
    (hgrow : ∀ doc p, ∀ x ∈ p, x ∈ (f doc p).2) :
    ∀ (includes : List Include) (p : List String),
      unprocessedCount snapshot p ≤ bound →
      includeLoop f snapshot includes p = includeLoop g snapshot includes p := by
  intro includes
  induction includes with
  | nil => intro p _; rfl
  | cons i rest ih =>
    intro p hp
    have hstep := hfg (snapshot.document i.resolvedFileName) p
      (fun d hd => Snapshot.document_mem snapshot _ d hd) hp
    have hnext : unprocessedCount snapshot
        (f (snapshot.document i.resolvedFileName) p).2 ≤ bound :=
      Nat.le_trans (unprocessedCount_mono snapshot _ _ (hgrow _ p)) hp
    have hrec := ih _ hnext
    unfold includeLoop
    simp only []
    rw [← hstep]
    split
    · rfl
    · exact hrec

/-- One more unit of depth changes nothing once the depth bound is at least
the number of unprocessed documents of the snapshot. -/
theorem findMacroLink_helper_succ (name : String) (snapshot : Snapshot) :
    ∀ (n : Nat) (doc : Option Document) (p : List String),
      (∀ d, doc = some d → d ∈ snapshot) → unprocessedCount snapshot p ≤ n →
      findMacroLink_helper name snapshot (n + 1) doc p
        = findMacroLink_helper name snapshot n doc p := by
  intro n
  induction n with
  | zero =>
    intro doc p hdoc hp
    cases doc with
    | none => simp [findMacroLink_helper]
    | some d =>
      have hin : d.fileName ∈ p := by
        by_contra hnot
        have := unprocessedCount_pos snapshot p d (hdoc d rfl) hnot
        omega
      simp [findMacroLink_helper, hin]
  | succ k ih =>
    intro doc p hdoc hp
    cases doc with
    | none => simp [findMacroLink_helper]
    | some d =>
      by_cases hguard : name.data.head? ≠ some '<' ∧ d.fileName ∉ p
      · have hlt := unprocessedCount_cons_lt snapshot p d (hdoc d rfl) hguard.2
        have hloop := includeLoop_congr snapshot k
          (findMacroLink_helper name snapshot (k + 1)) (findMacroLink_helper name snapshot k)
          (fun doc2 p2 h2 hp2 => ih doc2 p2 h2 hp2)
          (findMacroLink_helper_subset name snapshot (k + 1))
          d.resolvedIncludes.reverse (d.fileName :: p) (by omega)
        rw [findMacroLink_helper, findMacroLink_helper]
        simp only [hguard, not_false_eq_true, and_self, if_true]
        rw [hloop]
      · rw [findMacroLink_helper, findMacroLink_helper]
        simp only [hguard, if_false]

theorem findMacroLink_helper_add (name : String) (snapshot : Snapshot) (n : Nat)
    (doc : Option Document) (p : List String) (hdoc : ∀ d, doc = some d → d ∈ snapshot)
    (hp : unprocessedCount snapshot p ≤ n) :
    ∀ m, findMacroLink_helper name snapshot (n + m) doc p
      = findMacroLink_helper name snapshot n doc p := by
  intro m
  induction m with
  | zero => rfl
  | succ k ih =>
    rw [← Nat.add_assoc, findMacroLink_helper_succ name snapshot (n + k) doc p hdoc (by omega),
      ih]

/-- Termination of the search proper: from the snapshot's size plus one on,
the depth bound does not change the result, for any starting document. -/
theorem findMacroLink_helper_fuel (name : String) (snapshot : Snapshot) (doc : Document)
    (fuel : Nat) (hfuel : snapshot.length + 1 ≤ fuel) :
    findMacroLink_helper name snapshot fuel (some doc) []
      = findMacroLink_helper name snapshot (snapshot.length + 1) (some doc) [] := by
  obtain ⟨m, rfl⟩ : ∃ m, fuel = snapshot.length + m + 1 := ⟨fuel - snapshot.length - 1, by omega⟩
  have hloop := includeLoop_congr snapshot snapshot.length
    (findMacroLink_helper name snapshot (snapshot.length + m))
    (findMacroLink_helper name snapshot snapshot.length)
    (fun doc2 p2 h2 hp2 => findMacroLink_helper_add name snapshot _ doc2 p2 h2 hp2 m)
    (findMacroLink_helper_subset name snapshot _)
    doc.resolvedIncludes.reverse [doc.fileName] (unprocessedCount_le_length _ _)
  rw [findMacroLink_helper, findMacroLink_helper]
  simp only [hloop]

theorem preorderLoop_subset
    (step : Option Document → List String → List Document × List String)
    (snapshot : Snapshot) (hstep : ∀ doc p, ∀ x ∈ p, x ∈ (step doc p).2) :
    ∀ (includes : List Include) (p : List String),
      ∀ x ∈ p, x ∈ (preorderLoop step snapshot includes p).2 := by
  intro includes
  induction includes with
  | nil => intro p x hx; exact hx
  | cons i rest ih =>
    intro p x hx
    unfold preorderLoop
    exact ih _ x (hstep _ p x hx)

theorem depthFirstPreorder_subset (snapshot : Snapshot) :
    ∀ (fuel : Nat) (doc : Option Document) (p : List String),
      ∀ x ∈ p, x ∈ (depthFirstPreorder snapshot fuel doc p).2 := by
  intro fuel
  induction fuel with
  | zero => intro doc p x hx; simpa [depthFirstPreorder] using hx
  | succ n ih =>
    intro doc p x hx
    cases doc with
    | none => simpa [depthFirstPreorder] using hx
    | some d =>
      unfold depthFirstPreorder
      split
      · exact preorderLoop_subset _ snapshot ih _ _ x (List.mem_cons_of_mem _ hx)
      · exact hx

theorem preorderLoop_congr (snapshot : Snapshot) (bound : Nat)
    (f g : Option Document → List String → List Document × List String)
    (hfg : ∀ doc p, (∀ d, doc = some d → d ∈ snapshot) →
      unprocessedCount snapshot p ≤ bound → f doc p = g doc p)
    (hgrow : ∀ doc p, ∀ x ∈ p, x ∈ (f doc p).2) :
    ∀ (includes : List Include) (p : List String),
      unprocessedCount snapshot p ≤ bound →
      preorderLoop f snapshot includes p = preorderLoop g snapshot includes p := by
  intro includes
  induction includes with
  | nil => intro p _; rfl
  | cons i rest ih =>
    intro p hp
    have hstep := hfg (snapshot.document i.resolvedFileName) p
      (fun d hd => Snapshot.document_mem snapshot _ d hd) hp
    have hnext : unprocessedCount snapshot
        (f (snapshot.document i.resolvedFileName) p).2 ≤ bound :=
      Nat.le_trans (unprocessedCount_mono snapshot _ _ (hgrow _ p)) hp
    have hrec := ih _ hnext
    unfold preorderLoop
    simp only []
    rw [← hstep, hrec]

theorem depthFirstPreorder_succ (snapshot : Snapshot) :
    ∀ (n : Nat) (doc : Option Document) (p : List String),
      (∀ d, doc = some d → d ∈ snapshot) → unprocessedCount snapshot p ≤ n →
      depthFirstPreorder snapshot (n + 1) doc p = depthFirstPreorder snapshot n doc p := by
  intro n
  induction n with
  | zero =>
    intro doc p hdoc hp
    cases doc with
    | none => simp [depthFirstPreorder]
    | some d =>
      have hin : d.fileName ∈ p := by
        by_contra hnot
        have := unprocessedCount_pos snapshot p d (hdoc d rfl) hnot
        omega
      simp [depthFirstPreorder, hin]
  | succ k ih =>
    intro doc p hdoc hp
    cases doc with
    | none => simp [depthFirstPreorder]
    | some d =>
      by_cases hguard : d.fileName ∉ p
      · have hlt := unprocessedCount_cons_lt snapshot p d (hdoc d rfl) hguard
        have hloop := preorderLoop_congr snapshot k
          (depthFirstPreorder snapshot (k + 1)) (depthFirstPreorder snapshot k)
          (fun doc2 p2 h2 hp2 => ih doc2 p2 h2 hp2)
          (depthFirstPreorder_subset snapshot (k + 1))
          d.resolvedIncludes.reverse (d.fileName :: p) (by omega)
        rw [depthFirstPreorder, depthFirstPreorder]
        simp only [hguard, not_false_eq_true, if_true]
        rw [hloop]
      · rw [depthFirstPreorder, depthFirstPreorder]
        simp only [hguard, if_false]

theorem depthFirstPreorder_add (snapshot : Snapshot) (n : Nat)
    (doc : Option Document) (p : List String) (hdoc : ∀ d, doc = some d → d ∈ snapshot)
    (hp : unprocessedCount snapshot p ≤ n) :
    ∀ m, depthFirstPreorder snapshot (n + m) doc p = depthFirstPreorder snapshot n doc p := by
  intro m
  induction m with
  | zero => rfl
  | succ k ih =>
    rw [← Nat.add_assoc, depthFirstPreorder_succ snapshot (n + k) doc p hdoc (by omega), ih]

/-- The reference traversal is complete at the snapshot's size plus one: a
larger depth bound visits the same documents. -/
theorem depthFirstPreorder_fuel (snapshot : Snapshot) (doc : Document)
    (fuel : Nat) (hfuel : snapshot.length + 1 ≤ fuel) :
    depthFirstPreorder snapshot fuel (some doc) []
      = depthFirstPreorder snapshot (snapshot.length + 1) (some doc) [] := by
  obtain ⟨m, rfl⟩ : ∃ m, fuel = snapshot.length + m + 1 := ⟨fuel - snapshot.length - 1, by omega⟩
  have hloop := preorderLoop_congr snapshot snapshot.length
    (depthFirstPreorder snapshot (snapshot.length + m))
    (depthFirstPreorder snapshot snapshot.length)
    (fun doc2 p2 h2 hp2 => depthFirstPreorder_add snapshot _ doc2 p2 h2 hp2 m)
    (depthFirstPreorder_subset snapshot _)
    doc.resolvedIncludes.reverse [doc.fileName] (unprocessedCount_le_length _ _)
  rw [depthFirstPreorder, depthFirstPreorder]
  simp only [hloop]

theorem includeLoop_nodup (step : Option Document → List String → Link × List String)
    (snapshot : Snapshot) (hstep : ∀ doc p, p.Nodup → (step doc p).2.Nodup) :
    ∀ (includes : List Include) (p : List String), p.Nodup →
      (includeLoop step snapshot includes p).2.Nodup := by
  intro includes
  induction includes with
  | nil => intro p hp; exact hp
  | cons i rest ih =>
    intro p hp
    unfold includeLoop
    simp only []
    split
    · exact hstep _ p hp
    · exact ih _ (hstep _ p hp)

/-- No file name enters `processed` twice. -/
theorem findMacroLink_helper_nodup (name : String) (snapshot : Snapshot) :
    ∀ (fuel : Nat) (doc : Option Document) (p : List String), p.Nodup →
      (findMacroLink_helper name snapshot fuel doc p).2.Nodup := by
  intro fuel
  induction fuel with
  | zero => intro doc p hp; simpa [findMacroLink_helper] using hp
  | succ n ih =>
    intro doc p hp
    cases doc with
    | none => simpa [findMacroLink_helper] using hp
    | some d =>
      unfold findMacroLink_helper
      split
      · rename_i hguard
        have hcons : (d.fileName :: p).Nodup := List.nodup_cons.mpr ⟨hguard.2, hp⟩
        simp only []
        split
        · exact hcons
        · exact includeLoop_nodup _ snapshot ih _ _ hcons
      · exact hp

theorem firstDefinition_append (name : String) (l1 l2 : List Document) :
    firstDefinition name (l1 ++ l2)
      = (firstDefinition name l1).or (firstDefinition name l2) := by
  unfold firstDefinition
  induction l1 with
  | nil => simp
  | cons d rest ih =>
    simp only [List.cons_append, List.findSome?_cons]
    cases d.definedMacros.find? (fun m => m.name == name) with
    | none => simpa using ih
    | some m => simp

theorem includeLoop_agrees (name : String) (snapshot : Snapshot)
    (f : Option Document → List String → Link × List String)
    (g : Option Document → List String → List Document × List String)
    (hstep : ∀ doc p, (∀ d, doc = some d → d ∈ snapshot) →
      SearchAgrees name (f doc p) (g doc p)) :
    ∀ (includes : List Include) (p : List String),
      SearchAgrees name (includeLoop f snapshot includes p)
        (preorderLoop g snapshot includes p) := by
  intro includes
  induction includes with
  | nil =>
    intro p
    exact ⟨fun m h => by simp [preorderLoop, firstDefinition] at h, fun _ => rfl⟩
  | cons i rest ih =>
    intro p
    have h1 := hstep (snapshot.document i.resolvedFileName) p
      (fun d hd => Snapshot.document_mem snapshot _ d hd)
    have ih2 := ih
    unfold SearchAgrees at h1 ih2 ⊢
    unfold includeLoop preorderLoop
    simp only []
    rw [firstDefinition_append]
    cases hfirst : firstDefinition name (g (snapshot.document i.resolvedFileName) p).1 with
    | some m =>
      obtain ⟨hlink, hfile⟩ := h1.1 m hfirst
      have hvalid : (f (snapshot.document i.resolvedFileName) p).1.hasValidTarget = true := by
        rw [hlink]
        simp [macroLink, Link.hasValidTarget, hfile]
      simp only [hvalid, if_true, Option.or_some]
      refine ⟨fun m2 hm2 => ?_, fun h => by simp at h⟩
      have hmm : m = m2 := Option.some.inj hm2
      subst hmm
      exact ⟨hlink, hfile⟩
    | none =>
      have heq := h1.2 hfirst
      have hinvalid : (f (snapshot.document i.resolvedFileName) p).1.hasValidTarget
          = false := by
        rw [heq]
        rfl
      simp only [hinvalid, Bool.false_eq_true, if_false, Option.none_or]
      rw [heq]
      exact ih2 _

/-- Under the file-name condition the search follows the reference
traversal, at every depth bound. -/
theorem findMacroLink_helper_agrees (name : String) (snapshot : Snapshot)
    (hname : name.data.head? ≠ some '<')
    (hsnapshot : ∀ d ∈ snapshot, NamedMacrosHaveFile name d) :
    ∀ (fuel : Nat) (doc : Option Document) (p : List String),
      (∀ d, doc = some d → NamedMacrosHaveFile name d) →
      SearchAgrees name (findMacroLink_helper name snapshot fuel doc p)
        (depthFirstPreorder snapshot fuel doc p) := by
  intro fuel
  induction fuel with
  | zero =>
    intro doc p _
    exact ⟨fun m h => by simp [depthFirstPreorder, firstDefinition] at h,
      fun _ => by simp [findMacroLink_helper, depthFirstPreorder]⟩
  | succ n ih =>
    intro doc p hdoc
    cases doc with
    | none =>
      exact ⟨fun m h => by simp [depthFirstPreorder, firstDefinition] at h,
        fun _ => by simp [findMacroLink_helper, depthFirstPreorder]⟩
    | some d =>
      by_cases hseen : d.fileName ∈ p
      · exact ⟨fun m h => by simp [depthFirstPreorder, firstDefinition, hseen] at h,
          fun _ => by simp [findMacroLink_helper, depthFirstPreorder, hseen]⟩
      · have hloop := includeLoop_agrees name snapshot
          (findMacroLink_helper name snapshot n) (depthFirstPreorder snapshot n)
          (fun doc2 p2 h2 => ih doc2 p2 (fun d2 hd2 => hsnapshot d2 (h2 d2 hd2)))
          d.resolvedIncludes.reverse (d.fileName :: p)
        have hguard : name.data.head? ≠ some '<' ∧ d.fileName ∉ p := ⟨hname, hseen⟩
        unfold SearchAgrees at hloop ⊢
        rw [findMacroLink_helper, depthFirstPreorder, if_pos hguard, if_pos hseen]
        cases hfind : d.definedMacros.find? (fun m => m.name == name) with
        | some m =>
          have hmem := List.mem_of_find?_eq_some hfind
          have hmname : m.name = name := by
            have := List.find?_some hfind
            simpa using this
          refine ⟨fun m2 hm2 => ?_, fun h => ?_⟩
          · simp only [firstDefinition, List.findSome?_cons, hfind] at hm2
            have hmm : m = m2 := Option.some.inj hm2
            subst hmm
            exact ⟨rfl, hdoc d rfl m hmem hmname⟩
          · simp [firstDefinition, List.findSome?_cons, hfind] at h
        | none =>
          simp only []
          refine ⟨fun m2 hm2 => ?_, fun h => ?_⟩
          · apply hloop.1 m2
            simpa [firstDefinition, List.findSome?_cons, hfind] using hm2
          · apply hloop.2
            simpa [firstDefinition, List.findSome?_cons, hfind] using h

/-- C14. For the model manager's snapshot (include cycles and includes of
files that the snapshot lacks allowed) and every name:
(1) the search terminates: from the snapshot's size plus one on, the depth
bound changes neither the search nor the reference traversal; (2) no file is
processed twice; (3) for a non-empty name that does not start with `<`, in
a snapshot whose macros of that name have a defining file (a non-empty file
name), `findMacroLink` returns the link (defining file, defining line) of
the first macro of that name in the first document that defines one in the
depth-first pre-order (includes explored from the last to the first), the
unsigned line stored in the link's `int` field, and the empty link if no
visited document defines one; (4) it returns the empty link when the name
is empty or starts with `<`, and when the starting document is absent. -/
theorem findMacroLink_depth_first (env : Env) (name : String) :
    (∀ (start : Document) (fuel : Nat), env.globalSnapshot.length + 1 ≤ fuel →
        findMacroLink_helper name env.globalSnapshot fuel (some start) []
            = findMacroLink_helper name env.globalSnapshot
                (env.globalSnapshot.length + 1) (some start) []
          ∧ depthFirstPreorder env.globalSnapshot fuel (some start) []
            = depthFirstPreorder env.globalSnapshot
                (env.globalSnapshot.length + 1) (some start) [])
    ∧ (∀ start : Document,
        (findMacroLink_helper name env.globalSnapshot
          (env.globalSnapshot.length + 1) (some start) []).2.Nodup)
    ∧ (∀ start : Document, name ≠ "" → name.data.head? ≠ some '<' →
        (∀ d ∈ env.globalSnapshot, NamedMacrosHaveFile name d) →
        findMacroLink env name (some start) =
          match firstDefinition name
            (depthFirstPreorder env.globalSnapshot
              (env.globalSnapshot.length + 1) (some start) []).1 with
          | some m => { targetFileName := m.fileName, targetLine := toInt32 m.line }
          | none => {})
    ∧ (∀ doc : Option Document, name = "" ∨ name.data.head? = some '<' →
        findMacroLink env name doc = {})
    ∧ findMacroLink env name none = {} := by
  refine ⟨?_, ?_, ?_, ?_, ?_⟩
  · intro start fuel hfuel
    exact ⟨findMacroLink_helper_fuel name _ start fuel hfuel,
      depthFirstPreorder_fuel _ start fuel hfuel⟩
  · intro start
    exact findMacroLink_helper_nodup name _ _ _ _ List.nodup_nil
  · intro start hname hhead hsnapshot
    have hloop := includeLoop_agrees name env.globalSnapshot
      (findMacroLink_helper name env.globalSnapshot env.globalSnapshot.length)
      (depthFirstPreorder env.globalSnapshot env.globalSnapshot.length)
      (fun doc2 p2 h2 => findMacroLink_helper_agrees name env.globalSnapshot hhead hsnapshot
        _ doc2 p2 (fun d2 hd2 => hsnapshot d2 (h2 d2 hd2)))
      start.resolvedIncludes.reverse [start.fileName]
    have hguard : name.data.head? ≠ some '<' ∧ start.fileName ∉ ([] : List String) :=
      ⟨hhead, List.not_mem_nil _⟩
    unfold SearchAgrees at hloop
    unfold findMacroLink
    simp only [hname, ne_eq, not_false_eq_true, if_true]
    rw [findMacroLink_helper, depthFirstPreorder, if_pos hguard,
      if_pos (List.not_mem_nil _)]
    cases hfind : start.definedMacros.find? (fun m => m.name == name) with
    | some m => simp [firstDefinition, List.findSome?_cons, hfind, macroLink]
    | none =>
      simp only [firstDefinition, List.findSome?_cons, hfind]
      cases hfirst : firstDefinition name
          (preorderLoop (depthFirstPreorder env.globalSnapshot env.globalSnapshot.length)
            env.globalSnapshot start.resolvedIncludes.reverse [start.fileName]).1 with
      | some m =>
        have h1 := (hloop.1 m hfirst).1
        unfold firstDefinition at hfirst
        rw [hfirst]
        exact h1
      | none =>
        have h2 := hloop.2 hfirst
        unfold firstDefinition at hfirst
        rw [hfirst, h2]
  · intro doc h
    rcases h with h | h
    · simp [findMacroLink, h]
    · unfold findMacroLink
      split
      · cases doc with
        | none => rfl
        | some d => simp [findMacroLink_helper, h]
      · rfl
  · unfold findMacroLink
    split <;> rfl

theorem findMacroLink_depth_first_witness :
    findMacroLink cyclicEnv "M" (some mainDocument)
      = { targetFileName := "c.h", targetLine := 11 } :=
  (findMacroLink_depth_first cyclicEnv "M").2.2.1 mainDocument (by decide) (by decide)
    (by decide)

theorem chooseCandidate_first_override_witness :
    chooseCandidate ownDeclarationEnv 1 5 4
        [⟨.ofKind .function, some fooDeclaration⟩, ⟨.ofKind .other, some xyDeclaration⟩]
      = some ⟨.ofKind .other, some xyDeclaration⟩ :=
  (chooseCandidate_first_override ownDeclarationEnv 1 5 4
      ⟨.ofKind .function, some fooDeclaration⟩ [⟨.ofKind .other, some xyDeclaration⟩]).1
    [⟨.ofKind .function, some fooDeclaration⟩] [] ⟨.ofKind .other, some xyDeclaration⟩ rfl
    (fun c hc h => by
      have hc2 : c = ⟨.ofKind .function, some fooDeclaration⟩ := by simpa using hc
      subst hc2
      exact absurd ((overridesResult_iff ownDeclarationEnv 1 5 4 _).mpr h) (by decide))
    ((overridesResult_iff ownDeclarationEnv 1 5 4 _).mp (by decide))

theorem findDefinition_cases_witness :
    findDefinition forwardClassEnv fooDeclaration [] = some fooFunction :=
  (findDefinition_cases forwardClassEnv fooDeclaration []).2.2.1 (by decide) (by decide)

theorem attemptFuncDeclDef_disqualified_witness :
    attemptFuncDeclDef
        { parameterEnv with
          findMatchingDeclaration := fun _ _ _ => [barDeclaration]
          findMatchingDefinition := fun _ _ => some barFunction } barDocument []
      = ({}, Snapshot.insert [] barDocument) :=
  (attemptFuncDeclDef_disqualified parameterEnv barDocument []).1
    (Or.inr (Or.inr (Or.inr (Or.inl
      ⟨{ id := 16, kind := .parameterDeclaration, firstToken := 3, lastToken := 5 },
        by decide, by decide⟩))))
    (fun _ _ _ => [barDeclaration]) (fun _ _ => some barFunction)

theorem recognizeQtMethod_recognized_witness :
    recognizeQtMethod signalInsideEnv 8 11 = (true, ⟨7, 10, 16⟩) :=
  recognizeQtMethod_recognized signalInsideEnv 8 11 2 6 ⟨153, 0, 6⟩ ⟨47, 6, 7⟩ ⟨6, 7, 10⟩
    ⟨47, 10, 11⟩ ⟨65, 15, 16⟩ (by decide) (by decide) (by decide) (by decide) (by decide)
    (by decide) (by decide) (by decide)
    (fun k t hk ht => by
      have hk2 : k = 0 ∨ k = 1 := by omega
      rcases hk2 with h | h <;> subst h
      · have : t = ⟨153, 0, 6⟩ := by
          have h0 : signalInsideEnv.tokens[0]? = some ⟨153, 0, 6⟩ := by decide
          rw [h0] at ht
          exact (Option.some.inj ht).symm
        subst this
        decide
      · have : t = ⟨47, 6, 7⟩ := by
          have h1 : signalInsideEnv.tokens[1]? = some ⟨47, 6, 7⟩ := by decide
          rw [h1] at ht
          exact (Option.some.inj ht).symm
        subst this
        decide)
    (by decide) (by decide) (by decide) (by decide) (by decide)
    (fun k hk1 hk2 => by
      have hk3 : k = 1 ∨ k = 2 ∨ k = 3 ∨ k = 4 ∨ k = 5 := by omega
      rcases hk3 with h | h | h | h | h <;> subst h <;> decide)

/-- C13 fails on the code. In `SIGNAL(foo(int))` with the cursor at the
first character of `foo` (column 7), all conditions of the claim hold for
`i = 2` and `j = 6`, and the lexer's token at the cursor is the identifier.
The scan tests `begin <= 7 <= end` with both ends included, so the first
token that passes is the opening parenthesis before `foo` (6 to 7); the scan
stops there and no Qt method is recognized. One column further (8) and at
the identifier's end (10) the same scan recognizes the method, with the span
7 to 10 and the working cursor at 16. -/
theorem recognizeQtMethod_at_identifier_begin :
    signalStartEnv.tokens[0]? = some ⟨signalStartEnv.kinds.T_SIGNAL, 0, 6⟩
      ∧ signalStartEnv.tokens[1]? = some ⟨signalStartEnv.kinds.T_LPAREN, 6, 7⟩
      ∧ signalStartEnv.tokens[2]? = some ⟨signalStartEnv.kinds.T_IDENTIFIER, 7, 10⟩
      ∧ (7 ≤ toUnsigned signalStartEnv.positionInBlock
          ∧ toUnsigned signalStartEnv.positionInBlock ≤ 10)
      ∧ signalStartEnv.tokens[3]? = some ⟨signalStartEnv.kinds.T_LPAREN, 10, 11⟩
      ∧ BalancedBetween signalStartEnv.kinds signalStartEnv.tokens 1 6
      ∧ (∀ k < 6, 1 ≤ k → ¬ BalancedBetween signalStartEnv.kinds signalStartEnv.tokens 1 k)
      ∧ firstSpanning (toUnsigned signalStartEnv.positionInBlock) signalStartEnv.tokens 0
        = some 1
      ∧ recognizeQtMethod signalStartEnv signalStartEnv.positionInBlock
          signalStartEnv.identifierEnd = (false, ⟨0, 0, 10⟩)
      ∧ recognizeQtMethod signalInsideEnv signalInsideEnv.positionInBlock
          signalInsideEnv.identifierEnd = (true, ⟨7, 10, 16⟩)
      ∧ recognizeQtMethod signalEndEnv signalEndEnv.positionInBlock
          signalEndEnv.identifierEnd = (true, ⟨7, 10, 16⟩) := by
  decide

end FollowSymbol

namespace Beautifier

/-! ## Configuration file search -/

theorem firstMatchingFile_none (configFileMask : String → Bool) :
    ∀ nodes : List Node, anyMatch configFileMask nodes = false →
      firstMatchingFile configFileMask nodes = none
  | [], _ => rfl
  | .file f :: rest, h => by
    simp only [anyMatch, Node.hasMatch, Bool.or_eq_false_iff] at h
    simp [firstMatchingFile, h.1, firstMatchingFile_none configFileMask rest h.2]
  | .folder _ _ :: rest, h => by
    simp only [anyMatch, Node.hasMatch, Bool.or_eq_false_iff] at h
    simp [firstMatchingFile, firstMatchingFile_none configFileMask rest h.2]

mutual
theorem searchFolder_none (configFileMask : String → Bool) (visited : Option Nat) :
    ∀ node : Node, node.hasMatch configFileMask = false →
      (searchFolder configFileMask visited node).1 = none
  | .file _, _ => rfl
  | .folder id nodes, h => by
    simp only [Node.hasMatch] at h
    simp [searchFolder, firstMatchingFile_none configFileMask nodes h,
      searchSubfolders_none configFileMask visited nodes h]
theorem searchSubfolders_none (configFileMask : String → Bool) (visited : Option Nat) :
    ∀ nodes : List Node, anyMatch configFileMask nodes = false →
      (searchSubfolders configFileMask visited nodes).1 = none
  | [], _ => rfl
  | .file _ :: rest, h => by
    simp only [anyMatch, Bool.or_eq_false_iff] at h
    simp [searchSubfolders, searchSubfolders_none configFileMask visited rest h.2]
  | .folder id nodes :: rest, h => by
    simp only [anyMatch, Bool.or_eq_false_iff] at h
    have h1 := searchFolder_none configFileMask visited (.folder id nodes) h.1
    have h2 := searchSubfolders_none configFileMask visited rest h.2
    unfold searchSubfolders
    split
    · exact h2
    · simp only [h1]
      exact h2
end

/-- Without a match the loop climbs past the last ancestor: when no folder of
the chain but its top is the root, it ends in the dereference of the top's
null parent. -/
theorem climb_past_top (configFileMask : String → Bool) (root : Nat) :
    ∀ (ancestors : List FolderNode) (current : FolderNode) (visited : Option Nat)
      (enumerated : List Nat), visited ≠ some root →
      (∀ f ∈ ancestors, anyMatch configFileMask f.nodes = false) →
      (∀ f ∈ (current :: ancestors).dropLast, f.id ≠ root) →
      (climb configFileMask root none visited current ancestors enumerated).1
        = .nullDereference := by
  intro ancestors
  induction ancestors with
  | nil =>
    intro current visited enumerated hv _ _
    simp [climb, hv]
  | cons parent above ih =>
    intro current visited enumerated hv hnone hids
    have hsearch : (findConfigFileNodeVisited configFileMask parent (some current.id)).1
        = none :=
      searchFolder_none configFileMask _ _
        (by simpa [Node.hasMatch] using hnone parent (List.mem_cons_self _ _))
    have hcur : current.id ≠ root := hids current (by simp [List.dropLast])
    rw [climb]
    simp only [Option.isSome_none, Bool.false_eq_true, hv, or_self, if_false, hsearch]
    apply ih
    · simpa using hcur
    · exact fun f hf => hnone f (List.mem_cons_of_mem _ hf)
    · intro f hf
      apply hids f
      simp only [List.dropLast_cons₂, List.mem_cons]
      exact Or.inr hf

/-- The search leaves the project tree: if `from_` is the root or lies below
it, the root has no parent folder and no file on the way matches the mask,
`findConfigFileNode` does not return null after searching the root; it goes
on to the root's parent and dereferences the null pointer. -/
theorem findConfigFileNode_past_root (configFileMask : String → Bool) (root : Nat)
    (start : FolderNode) (ancestors : List FolderNode)
    (hnone : ∀ f ∈ start :: ancestors, anyMatch configFileMask f.nodes = false)
    (hids : ∀ f ∈ (start :: ancestors).dropLast, f.id ≠ root) :
    (findConfigFileNode configFileMask (some (some root)) (some (start, ancestors))).1
      = .nullDereference := by
  have hsearch : (findConfigFileNodeVisited configFileMask start none).1 = none :=
    searchFolder_none configFileMask _ _
      (by simpa [Node.hasMatch] using hnone start (List.mem_cons_self _ _))
  unfold findConfigFileNode
  simp only [hsearch]
  exact climb_past_top configFileMask root ancestors start none _ (by simp)
    (fun f hf => hnone f (List.mem_cons_of_mem _ hf)) hids

/-- C16 fails on the code. Started in the folder `src` of a project whose
root has no parent folder and holds no `uncrustify.cfg`, the search
enumerates `src` (2) and the root (1) and then, instead of returning null,
calls the three-argument search on the root's null parent. With a folder
above the root, it enumerates that folder (0) and a sibling project (5) and
returns a file from outside the project tree. -/
theorem findConfigFileNode_leaves_project_tree :
    findConfigFileNode cfgMask (some (some 1)) (some (srcFolder, [rootFolder]))
        = (.nullDereference, [2, 1])
      ∧ findConfigFileNode cfgMask (some (some 1)) (some (rootFolder, []))
        = (.nullDereference, [1, 2])
      ∧ findConfigFileNode cfgMask (some (some 1))
          (some (srcFolder, [rootFolder, sessionFolder]))
        = (.returned (some ⟨50, "uncrustify.cfg"⟩), [2, 1, 0, 5]) := by
  decide

end Beautifier
